import Mathlib

/-!
Verification development for the MCP plan-execution engine
(`mcp/resolver.py`, `mcp/conditions.py`, `mcp/run_store.py`, `mcp/executor.py`).
-/

/-- An exact rational, modelling Python numbers (ints and floats are not
distinguished; no claim depends on float rounding).  The pair is kept
unnormalised — every constructor and operation below keeps `den` positive, and
equality/"comparison" are by cross-multiplication — so that all arithmetic is
plain `Int` arithmetic the kernel can evaluate. -/
structure Q where
  num : Int
  den : Int
deriving Repr, DecidableEq

/-- The integer `n` as a `Q`. -/
def qi (n : Int) : Q := ⟨n, 1⟩

def qAdd (a b : Q) : Q := ⟨a.num * b.den + b.num * a.den, a.den * b.den⟩

def qSub (a b : Q) : Q := ⟨a.num * b.den - b.num * a.den, a.den * b.den⟩

def qLt (a b : Q) : Bool := a.num * b.den < b.num * a.den

def qLe (a b : Q) : Bool := a.num * b.den ≤ b.num * a.den

def qEqb (a b : Q) : Bool := a.num * b.den == b.num * a.den

/-- Python `min(a, b)` on numbers: returns `b` only when `b < a`. -/
def qMin (a b : Q) : Q := if qLt b a then b else a

/-- Truncation toward zero, as Python `int(float)`. -/
def qTrunc (a : Q) : Int := a.num.tdiv a.den

/-- Rendering of a number inside an f-string.  Integral values match Python's
`str(int)`; for non-integral values Python's float repr (`"0.5"`) is
approximated by `num/den` — no claim inspects the numeric part of a message. -/
def qToStr (a : Q) : String :=
  if a.den = 1 then toString a.num else toString a.num ++ "/" ++ toString a.den

/-- A JSON-like dynamically typed value (Python `None`/`bool`/number/`str`/`list`/`dict`).
Dicts are insertion-ordered association lists with unique keys, mirroring
Python dict semantics. -/
inductive Value where
  | null
  | bool (b : Bool)
  | num (q : Q)
  | str (s : String)
  | arr (xs : List Value)
  | obj (kvs : List (String × Value))
deriving Repr

/-- A Python dict of `Value`s. -/
abbrev Obj := List (String × Value)

/-- `d.get(k)`: first entry with the given key (keys are unique by construction). -/
def dget : Obj → String → Option Value
  | [], _ => none
  | (k', v') :: rest, k => if k' = k then some v' else dget rest k

/-- `d[k] = v`: replace in place if the key exists (keeping its position), else append. -/
def dset : Obj → String → Value → Obj
  | [], k, v => [(k, v)]
  | (k', v') :: rest, k, v => if k' = k then (k, v) :: rest else (k', v') :: dset rest k v

example : dget (dset [] "a" (.num (qi 1))) "a" = some (.num (qi 1)) := rfl

/-- Is the value a Python dict? (`isinstance(x, dict)`) -/
def isObjV : Value → Bool
  | .obj _ => true
  | _ => false

/-- Is the value Python `None`? -/
def pyIsNull : Value → Bool
  | .null => true
  | _ => false

/-- The whitespace characters removed by Python `str.strip()`. -/
def pyWsChar (c : Char) : Bool :=
  c = ' ' || c = '\t' || c = '\n' || c = '\r' || c = '\x0b' || c = '\x0c'

/-- `str.strip()` on a character list. -/
def chTrim (cs : List Char) : List Char :=
  ((cs.dropWhile pyWsChar).reverse.dropWhile pyWsChar).reverse

/-- Python `s.strip()`. -/
def pyStrip (s : String) : String := String.mk (chTrim s.data)

/-- Python `s.strip().lower()` (ASCII lowering — plan fields are ASCII). -/
def pyStripLower (s : String) : String := String.mk ((chTrim s.data).map Char.toLower)

/-- Python truthiness (`bool(x)`): `None`, `False`, `0`, `""`, `[]`, `{}` are falsy. -/
def pyTruthy : Value → Bool
  | .null => false
  | .bool b => b
  | .num q => !qEqb q (qi 0)
  | .str s => !s.data.isEmpty
  | .arr xs => !xs.isEmpty
  | .obj kvs => !kvs.isEmpty

/-- Python `x or d`: keep `x` when truthy, else the default. -/
def pyOr (v d : Value) : Value := if pyTruthy v then v else d

/-- Python `str(x)`.  Exact for `None`/booleans/strings; numbers are rendered
with `qToStr`; the repr of containers is not modelled (the engine only ever
applies `str` to error fields, which are strings in every behaviour the spec
describes). -/
def pyStr : Value → String
  | .null => "None"
  | .bool b => if b then "True" else "False"
  | .num q => qToStr q
  | .str s => s
  | .arr _ => "[...]"
  | .obj _ => "{...}"

/-- Python `int(x)`.  `none` models the `TypeError`/`ValueError` the conversion
raises on unconvertible input.  Numeric strings are parsed as integers via
`String.toInt?` (Python also accepts a leading `+`, not modelled). Floats
truncate toward zero. -/
def pyInt : Value → Option Int
  | .num q => some (qTrunc q)
  | .bool b => some (if b then 1 else 0)
  | .str s => (pyStrip s).toInt?
  | _ => none

/-- Python `float(x)`.  `none` models a conversion error.  Strings holding a
(decimal-point-free) integer are parsed; other float syntax (`"1.5"`, `"1e3"`,
`"inf"`) is not modelled — no claim exercises it. -/
def pyFloat : Value → Option Q
  | .num q => some q
  | .bool b => some (if b then qi 1 else qi 0)
  | .str s => ((pyStrip s).toInt?).map qi
  | _ => none

/-- Python list indexing `xs[i]` (negative indices count from the end);
`none` models the `IndexError`. -/
def pyListIndex (xs : List Value) (i : Int) : Option Value :=
  if 0 ≤ i then xs.get? i.toNat
  else if 0 ≤ i + xs.length then xs.get? (i + xs.length).toNat
  else none

/- ----------------------------------------------------------------
   resolver.py
---------------------------------------------------------------- -/

/-- Python `path.split(".")` on the character list of the path: segments may be
empty (`"a..b" -> ["a", "", "b"]`, `"" -> [""]`). -/
def chSplitDots : List Char → List (List Char)
  | [] => [[]]
  | c :: rest =>
    if c = '.' then [] :: chSplitDots rest
    else match chSplitDots rest with
      | seg :: segs => (c :: seg) :: segs
      | [] => [[c]]

/-- `_get_path(obj, path)` of resolver.py: walk a dotted path through nested
dicts/lists; empty segments are skipped; any missing key, bad index or
container-type mismatch yields `None`. -/
def getPath : Value → List (List Char) → Value
  | cur, [] => cur
  | cur, part :: rest =>
    if part = [] then getPath cur rest
    else match cur with
      | .obj kvs => getPath ((dget kvs (String.mk part)).getD .null) rest
      | .arr xs =>
        match (String.mk (chTrim part)).toInt? with
        | none => .null
        | some i =>
          match pyListIndex xs i with
          | none => .null
          | some v => getPath v rest
      | _ => .null

/-- The `state` dict handed to the resolver and condition evaluator:
`{"vars": st.vars, "save": st.save, "last": st.last}`.  The executor keeps the
dict's entries aliased to the run state's fields at all times (it rebinds
`state["last"]` whenever it rebinds `st.last`), so the view is recomputed from
the run state at each use. -/
structure RState where
  vars : Obj
  save : Obj
  last : Value
deriving Repr

/-- `resolve_ref(ref, state)` of resolver.py: `$vars.p` and `$last.p` read from
`state.vars`/`state.last`; otherwise the segment before the first dot is a key
into `state.save`; a ref without `$` is returned unchanged. -/
def resolveRef (ref : String) (state : RState) : Value :=
  match ref.data with
  | '$' :: token =>
    if ['v','a','r','s','.'].isPrefixOf token then
      getPath (.obj state.vars) (chSplitDots (token.drop 5))
    else if ['l','a','s','t','.'].isPrefixOf token then
      getPath state.last (chSplitDots (token.drop 5))
    else
      match token.span (fun c => c ≠ '.') with
      | (key, []) => (dget state.save (String.mk key)).getD .null
      | (key, _dot :: tail) =>
        getPath ((dget state.save (String.mk key)).getD (.obj [])) (chSplitDots tail)
  | _ => .str ref

/-- `resolve_value(v, state)`: strings starting with `$` are dereferenced,
everything else is already a literal. -/
def resolveValue (v : Value) (state : RState) : Value :=
  match v with
  | .str s =>
    match s.data with
    | '$' :: _ => resolveRef s state
    | _ => v
  | _ => v

mutual
/-- `resolve_args(args, state)`: recursively resolve every value inside
nested dicts/lists. -/
def resolveArgs (state : RState) : Value → Value
  | .obj kvs => .obj (resolveArgsObj state kvs)
  | .arr xs => .arr (resolveArgsList state xs)
  | v => resolveValue v state

def resolveArgsList (state : RState) : List Value → List Value
  | [] => []
  | x :: rest => resolveArgs state x :: resolveArgsList state rest

def resolveArgsObj (state : RState) : List (String × Value) → List (String × Value)
  | [] => []
  | (k, v) :: rest => (k, resolveArgs state v) :: resolveArgsObj state rest
end

/-- `resolve_args` applied to a tool step's argument dict. -/
def resolveArgsDict (state : RState) (args : Obj) : Obj := resolveArgsObj state args

/- ----------------------------------------------------------------
   conditions.py
---------------------------------------------------------------- -/

mutual
/-- Python `==` on JSON-like values.  `True == 1` holds (bools are ints).
Dict comparison is modelled entry-order-sensitively; Python dict equality
ignores key order, but every dict the engine compares is built with a
deterministic key order, and no claim compares reordered dicts. -/
def pyEq : Value → Value → Bool
  | .null, .null => true
  | .bool a, .bool b => a == b
  | .bool a, .num q => qEqb (if a then qi 1 else qi 0) q
  | .num q, .bool b => qEqb q (if b then qi 1 else qi 0)
  | .num a, .num b => qEqb a b
  | .str a, .str b => a == b
  | .arr xs, .arr ys => pyEqList xs ys
  | .obj a, .obj b => pyEqObj a b
  | _, _ => false

def pyEqList : List Value → List Value → Bool
  | [], [] => true
  | x :: xs, y :: ys => pyEq x y && pyEqList xs ys
  | _, _ => false

def pyEqObj : List (String × Value) → List (String × Value) → Bool
  | [], [] => true
  | (k, v) :: xs, (k', v') :: ys => k == k' && pyEq v v' && pyEqObj xs ys
  | _, _ => false
end

/-- Numeric comparison of conditions.py: convert both sides with `float(...)`;
a conversion failure is caught and yields `False`. -/
def numCmp (l r : Value) (f : Q → Q → Bool) : Bool :=
  match pyFloat l, pyFloat r with
  | some a, some b => f a b
  | _, _ => false

/-- `eval_cond(cond, state)` of conditions.py.  The `fuel` argument only bounds
the recursion depth (the Python function recurses structurally and always
terminates); when fuel runs out the conservative `False` is returned, and every
theorem below is stated so that one fuel step matches one recursion step. -/
def evalCond : Nat → Value → RState → Bool
  | 0, _, _ => false
  | fuel + 1, cond, state =>
    match cond with
    | .obj kvs =>
      match dget kvs "op" with
      | some (.str op0) =>
        let op := pyStripLower op0
        if op = "and" then
          match (dget kvs "conds").getD .null with
          | .arr cs => (cs.filter fun c => isObjV c).all fun c => evalCond fuel c state
          | _ =>
            evalCond fuel ((dget kvs "left").getD .null) state &&
              evalCond fuel ((dget kvs "right").getD .null) state
        else if op = "or" then
          match (dget kvs "conds").getD .null with
          | .arr cs => (cs.filter fun c => isObjV c).any fun c => evalCond fuel c state
          | _ =>
            evalCond fuel ((dget kvs "left").getD .null) state ||
              evalCond fuel ((dget kvs "right").getD .null) state
        else if op = "not" then
          match (dget kvs "cond").getD .null with
          | .obj inner => !evalCond fuel (.obj inner) state
          | _ => false
        else if op = "exists" then
          !pyIsNull (resolveValue ((dget kvs "value").getD .null) state)
        else
          let left := resolveValue ((dget kvs "left").getD .null) state
          let right := resolveValue ((dget kvs "right").getD .null) state
          if op = "==" then pyEq left right
          else if op = "!=" then !pyEq left right
          else if op = ">" then numCmp left right (fun a b => qLt b a)
          else if op = ">=" then numCmp left right (fun a b => qLe b a)
          else if op = "<" then numCmp left right (fun a b => qLt a b)
          else if op = "<=" then numCmp left right (fun a b => qLe a b)
          else false
      | _ => false
    | _ => false

example :
    resolveRef "$vars.x" { vars := [("x", .num (qi 5))], save := [], last := .null }
      = .num (qi 5) := rfl

example :
    resolveRef "$kb.found" { vars := [], save := [("kb", .obj [("found", .bool true)])], last := .null }
      = .bool true := rfl

example :
    evalCond 3 (.obj [("op", .str "=="), ("left", .str "$vars.x"), ("right", .num (qi 5))])
      { vars := [("x", .num (qi 5))], save := [], last := .null } = true := rfl

/- ----------------------------------------------------------------
   run_store.py
---------------------------------------------------------------- -/

/-- `McpRunStep` (run_store.py).  The dataclass declares `error: Optional[str]`
but the executor stores `result.get("error")` there, which can be any value, so
the field is modelled as `Option Value`. -/
structure McpRunStep where
  i : Nat
  kind : String
  name : String := ""
  args : Obj := []
  started_ts : Option Q := none
  ended_ts : Option Q := none
  ok : Option Bool := none
  result : Value := .obj []
  error : Option Value := none
deriving Repr

/-- `McpRunState` (run_store.py).  `last` is declared a dict but is rebound to
whole result values, so it is modelled as `Value`. -/
structure McpRunState where
  run_id : String
  created_ts : Q
  status : String := "running"
  plan : Obj := []
  initial_state : Obj := []
  vars : Obj := []
  save : Obj := []
  last : Value := .obj []
  steps : List McpRunStep := []
  error : Option String := none
  finished_ts : Option Q := none
  cancelled : Bool := false
deriving Repr

/-- The seed `dict((initial_state or {}).get(k, {}) or {})` used by
`McpRunStore.create` for `vars`/`save`/`last`; `none` models the `TypeError`
from `dict(...)` on a truthy non-dict. -/
def initField (initial_state : Obj) (k : String) : Option Obj :=
  match pyOr ((dget initial_state k).getD (.obj [])) (.obj []) with
  | .obj kvs => some kvs
  | _ => none

/-- `McpRunStore.create`: a fresh record with status "running", seeded from the
initial state. -/
def storeCreate (run_id : String) (now : Q) (plan : Obj) (initial_state : Obj) :
    Option McpRunState :=
  match initField initial_state "vars", initField initial_state "save",
      initField initial_state "last" with
  | some vars, some save, some last =>
    some { run_id, created_ts := now, status := "running", plan, initial_state,
           vars, save, last := .obj last }
  | _, _, _ => none

/-- `McpRunStore.cancel` on a run that exists: set `cancelled=True`; if the run
is still "running", also force status "cancelled" and stamp `finished_ts`. -/
def storeCancel (now : Q) (st : McpRunState) : McpRunState :=
  let st := { st with cancelled := true }
  if st.status = "running" then { st with status := "cancelled", finished_ts := some now }
  else st

/-- `McpRunStore.finish` on a run that exists: clamp the status to the terminal
set and unconditionally overwrite status, error and `finished_ts`. -/
def storeFinish (status : String) (error : Option String) (now : Q) (st : McpRunState) :
    McpRunState :=
  let status := if status = "done" ∨ status = "failed" ∨ status = "cancelled" then status
                else "failed"
  { st with status := status, error := error, finished_ts := some now }

/-- The status values the spec calls terminal. -/
def terminalStatus (s : String) : Bool := s = "done" || s = "failed" || s = "cancelled"

/- ----------------------------------------------------------------
   executor.py
---------------------------------------------------------------- -/

/-- What `_call_with_timeout`'s waiting thread observes of one tool
invocation: the worker returned a value in time, raised in time, or missed the
deadline (`done.wait(timeout_s)` returned with the event unset — the worker is
abandoned, not killed). -/
inductive InvokeOutcome where
  | ret (v : Value)
  | exc (msg : String)
  | timeout

/-- The executor's construction parameters (`McpExecutor.__init__`).  The tool
invoker is modelled as a pure function of the tool name and resolved args. -/
structure Cfg where
  invoker : String → Obj → InvokeOutcome
  allow_tools : Option (List String) := none
  max_steps : Int := 20
  per_step_timeout_s : Q := qi 20

/-- A single-quote character as a string (used inside error messages). -/
def sqch : String := String.singleton (Char.ofNat 39)

/-- `{"ok": False, "error": msg}`. -/
def mkErr (msg : String) : Value := .obj [("ok", .bool false), ("error", .str msg)]

/-- `McpExecutor._call_with_timeout`: a timeout synthesizes a failure result;
an invoker exception is caught and normalized; a dict result lacking "ok" is
normalized (`{ok:False,error}` when it has "error", else `ok:True` is
prepended); a non-dict result becomes a failure.  The function is total: it
always returns a dict with an "ok" key and never raises. -/
def callWithTimeout (oc : InvokeOutcome) (timeout_s : Q) : Value :=
  match oc with
  | .timeout => mkErr ("tool timeout after " ++ qToStr timeout_s ++ "s")
  | .exc m => mkErr m
  | .ret v =>
    match v with
    | .obj kvs =>
      match dget kvs "ok", dget kvs "error" with
      | none, some e => .obj [("ok", .bool false), ("error", e)]
      | none, none => .obj (("ok", .bool true) :: kvs)
      | some _, _ => .obj kvs
    | _ => mkErr "tool returned non-dict"

/-- `_on_fail_mode(step)`: default "stop"; non-strings and unrecognized values
fall back to "stop"; recognized values are "stop" and "continue" after
strip/lower. -/
def onFailMode (skvs : Obj) : String :=
  match pyOr ((dget skvs "on_fail").getD .null) (.str "stop") with
  | .str s =>
    if pyStripLower s = "stop" ∨ pyStripLower s = "continue" then pyStripLower s else "stop"
  | _ => "stop"

/-- `(step.get("type") or "").strip().lower()`; `none` models the
`AttributeError` raised when the field holds a truthy non-string. -/
def stepTypeOf (skvs : Obj) : Option String :=
  match pyOr ((dget skvs "type").getD .null) (.str "") with
  | .str s => some (pyStripLower s)
  | _ => none

/-- The executor's view of a run mid-execution: the run record plus the wall
clock.  The model advances the clock only at `time.sleep(poll_s)`; all other
operations are treated as instantaneous (claims never depend on durations of
individual calls). -/
structure ExecSt where
  rs : McpRunState
  now : Q

/-- The `state` dict `{"vars": st.vars, "save": st.save, "last": st.last}`; the
executor keeps its entries aliased to the run state at all times, so it is
recomputed as a view. -/
def rstateOf (rs : McpRunState) : RState := ⟨rs.vars, rs.save, rs.last⟩

/-- `_log_step`'s copy of the result with the step path added when absent. -/
def pathInject (result : Value) (path : String) : Value :=
  match result with
  | .obj kvs => if (dget kvs "path").isSome then .obj kvs else .obj (kvs ++ [("path", .str path)])
  | v => v

/-- `result.get("error")` when the result is a dict. -/
def errField : Value → Option Value
  | .obj kvs => dget kvs "error"
  | _ => none

/-- `McpExecutor._log_step`: append one `McpRunStep` with `i = len(st.steps)`,
the path-augmented result (`result or {}`), and `error = result.get("error")`. -/
def logStep (rs : McpRunState) (kind name : String) (args : Obj) (path : String)
    (ok : Bool) (result : Value) (started ended : Option Q) : McpRunState :=
  let r := pathInject result path
  let entry : McpRunStep :=
    { i := rs.steps.length, kind := kind, name := name, args := args,
      started_ts := started, ended_ts := ended, ok := some ok,
      result := if pyTruthy r then r else .obj [], error := errField r }
  { rs with steps := rs.steps ++ [entry] }

/-- `McpExecutor._fail`: record the message in `st.error` (the caller then
returns `False`). -/
def failSet (rs : McpRunState) (msg : String) : McpRunState := { rs with error := some msg }

/-- Python `e or msg` on an optional string: `None` and `""` fall back. -/
def errOr (e : Option String) (msg : String) : String :=
  match e with
  | some s => if s.data.isEmpty then msg else s
  | none => msg

/-- `st.last if isinstance(st.last, dict) else {"ok": False, "error": msg}`. -/
def lastOrElse (rs : McpRunState) (msg : String) : Value :=
  match rs.last with
  | .obj l => .obj l
  | _ => mkErr msg

/-- After a soft ("continue") failure: `st.last = result` when the result is a
dict, else the fixed soft-failure dict. -/
def recordLast (est : ExecSt) (result : Value) : ExecSt :=
  match result with
  | .obj _ => ⟨{ est.rs with last := result }, est.now⟩
  | _ => ⟨{ est.rs with last := .obj [("ok", .bool false), ("error", .str "step failed (soft)")] }, est.now⟩

/-- Rebinding `st.last = v`. -/
def setLast (rs : McpRunState) (v : Value) : McpRunState := { rs with last := v }

/-- `McpExecutor._exec_tool_step`: validate the name and allow-list, resolve
args, invoke through the timeout wrapper, store the result under `save_as` (if
given) and under the tool name, rebind `last`, log, and report `ok` unless the
result is a dict with `ok is False`. -/
def execToolStep (cfg : Cfg) (est : ExecSt) (skvs : Obj) (path : String) (perStep : Q) :
    (Bool × Value) × ExecSt :=
  match (dget skvs "name").getD .null with
  | .str nm =>
    if (pyStrip nm).data.isEmpty then
      let res := mkErr ("tool step missing name at " ++ path)
      ((false, res), ⟨logStep est.rs "tool" "" [] path false res none none, est.now⟩)
    else
      let name := pyStrip nm
      if (match cfg.allow_tools with | some ts => decide (name ∉ ts) | none => false) then
        let res := mkErr ("tool " ++ sqch ++ name ++ sqch ++ " not allowed")
        ((false, res), ⟨logStep est.rs "tool" name [] path false res none none, est.now⟩)
      else
        match pyOr ((dget skvs "args").getD .null) (.obj []) with
        | .obj argkvs =>
          let resolved := resolveArgsDict (rstateOf est.rs) argkvs
          let result := callWithTimeout (cfg.invoker name resolved) perStep
          let rs := est.rs
          let rs := match dget skvs "save_as" with
            | some (.str sa) =>
              if (pyStrip sa).data.isEmpty then rs
              else { rs with save := dset rs.save (pyStrip sa) result }
            | _ => rs
          let rs := { rs with save := dset rs.save name result }
          let rs := { rs with last := result }
          let ok := match result with
            | .obj rkvs =>
              match dget rkvs "ok" with
              | some (.bool false) => false
              | _ => true
            | _ => true
          let rs := logStep rs "tool" name resolved path ok result (some est.now) (some est.now)
          ((ok, result), ⟨rs, est.now⟩)
        | _ =>
          let res := mkErr ("tool args must be object at " ++ path)
          ((false, res), ⟨logStep est.rs "tool" name [] path false res none none, est.now⟩)
  | _ =>
    let res := mkErr ("tool step missing name at " ++ path)
    ((false, res), ⟨logStep est.rs "tool" "" [] path false res none none, est.now⟩)

/-- `McpExecutor._exec_set_step`: resolve the value, write `vars[var]`, rebind
`last`, log; always succeeds barring the missing-var structural error. -/
def execSetStep (est : ExecSt) (skvs : Obj) (path : String) : (Bool × Value) × ExecSt :=
  match (dget skvs "var").getD .null with
  | .str v =>
    if (pyStrip v).data.isEmpty then
      let res := mkErr ("set step missing var at " ++ path)
      ((false, res), ⟨logStep est.rs "set" "" [] path false res none none, est.now⟩)
    else
      let var := pyStrip v
      let value := resolveValue ((dget skvs "value").getD .null) (rstateOf est.rs)
      let rs := { est.rs with vars := dset est.rs.vars var value }
      let res : Value := .obj [("ok", .bool true), ("set", .str var), ("value", value)]
      let rs := { rs with last := res }
      let rs := logStep rs "set" var [("value", value)] path true res none none
      ((true, res), ⟨rs, est.now⟩)
  | _ =>
    let res := mkErr ("set step missing var at " ++ path)
    ((false, res), ⟨logStep est.rs "set" "" [] path false res none none, est.now⟩)

/-- The `onFail` "stop" error update of `_exec_steps`: take the result's
error field when present and truthy; otherwise keep an already-set
`state.error`, falling back to the generic path-qualified message. -/
def stopErrorUpdate (rs : McpRunState) (result : Value) (stepPath : String) : McpRunState :=
  match result with
  | .obj rkvs =>
    match dget rkvs "error" with
    | some e =>
      if pyTruthy e then failSet rs (pyStr e)
      else failSet rs (errOr rs.error ("step failed at " ++ stepPath))
    | none => failSet rs (errOr rs.error ("step failed at " ++ stepPath))
  | _ => failSet rs (errOr rs.error ("step failed at " ++ stepPath))

mutual
/-- `McpExecutor._exec_steps`: iterate the step list; check cancellation, the
dict shape and the step budget before each dispatch; apply the `onFail` policy
to failures.  `fuel` bounds the recursion/loop depth: every mutual call runs at
one less fuel, and a `none` result models fuel exhaustion or an uncaught
Python exception (either way the run never finishes). -/
def execSteps (fuel : Nat) (cfg : Cfg) (est : ExecSt) (steps : List Value) (path : String)
    (idx : Nat) (maxSteps : Int) (perStep : Q) : Option (Bool × ExecSt) :=
  match fuel with
  | 0 => none
  | f + 1 =>
    match steps with
    | [] => some (true, est)
    | step :: rest =>
      if est.rs.cancelled || est.rs.status = "cancelled" then some (false, est)
      else
        match step with
        | .obj skvs =>
          if maxSteps ≤ (est.rs.steps.length : Int) then
            some (false, ⟨failSet est.rs ("max_steps exceeded (" ++ toString maxSteps ++ ")"), est.now⟩)
          else
            match stepTypeOf skvs with
            | none => none
            | some _ =>
              let stepPath := path ++ "[" ++ toString idx ++ "]"
              match dispatchStep f cfg est skvs stepPath maxSteps perStep with
              | none => none
              | some ((ok, result), est1) =>
                if ok then execSteps f cfg est1 rest path (idx + 1) maxSteps perStep
                else
                  if onFailMode skvs = "stop" then
                    some (false, ⟨stopErrorUpdate est1.rs result stepPath, est1.now⟩)
                  else
                    let fbV := pyOr ((dget skvs "fallback").getD .null) (.arr [])
                    if pyTruthy fbV then
                      match fbV with
                      | .arr fbs =>
                        match execSteps f cfg est1 fbs (stepPath ++ ".fallback") 0 maxSteps perStep with
                        | none => none
                        | some (false, est2) => some (false, est2)
                        | some (true, est2) =>
                          execSteps f cfg (recordLast est2 result) rest path (idx + 1) maxSteps perStep
                      | _ =>
                        some (false, ⟨failSet est1.rs ("fallback must be an array at " ++ stepPath), est1.now⟩)
                    else
                      execSteps f cfg (recordLast est1 result) rest path (idx + 1) maxSteps perStep
        | _ =>
          some (false, ⟨failSet est.rs ("invalid step at " ++ path ++ "[" ++ toString idx ++ "]"), est.now⟩)

/-- `McpExecutor._dispatch_step`: dispatch on the normalized step type; an
unknown type yields a failure result (handled by the step's `onFail`). -/
def dispatchStep (fuel : Nat) (cfg : Cfg) (est : ExecSt) (skvs : Obj) (path : String)
    (maxSteps : Int) (perStep : Q) : Option ((Bool × Value) × ExecSt) :=
  match fuel with
  | 0 => none
  | f + 1 =>
    match stepTypeOf skvs with
    | none => none
    | some t =>
      if t = "tool" then some (execToolStep cfg est skvs path perStep)
      else if t = "set" then some (execSetStep est skvs path)
      else if t = "if" then execIfStep f cfg est skvs path maxSteps perStep
      else if t = "wait" then execWaitStep f cfg est skvs path maxSteps perStep
      else
        some ((false, .obj [("ok", .bool false),
          ("error", .str ("unknown step type " ++ sqch ++ t ++ sqch ++ " at " ++ path))]), est)

/-- `McpExecutor._exec_if_step`: validate cond/then/else, log which branch was
taken, recurse into the chosen branch; overall success is the branch's. -/
def execIfStep (fuel : Nat) (cfg : Cfg) (est : ExecSt) (skvs : Obj) (path : String)
    (maxSteps : Int) (perStep : Q) : Option ((Bool × Value) × ExecSt) :=
  match fuel with
  | 0 => none
  | f + 1 =>
    match (dget skvs "cond").getD .null with
    | .obj ckvs =>
      match pyOr ((dget skvs "then").getD .null) (.arr []),
          pyOr ((dget skvs "else").getD .null) (.arr []) with
      | .arr thenSteps, .arr elseSteps =>
        let take_then := evalCond f (.obj ckvs) (rstateOf est.rs)
        let res : Value := .obj [("ok", .bool true), ("if", .bool take_then)]
        let rs := { est.rs with last := res }
        let rs := logStep rs "if" "if" [("take_then", .bool take_then)] path true res none none
        let branch := if take_then then thenSteps else elseSteps
        let bname := if take_then then "then" else "else"
        match execSteps f cfg ⟨rs, est.now⟩ branch (path ++ "." ++ bname) 0 maxSteps perStep with
        | none => none
        | some (ok, est1) => some ((ok, lastOrElse est1.rs "if branch failed"), est1)
      | _, _ =>
        let res := mkErr ("if then/else must be arrays at " ++ path)
        some ((false, res), ⟨logStep est.rs "if" "if" [] path false res none none, est.now⟩)
    | _ =>
      let res := mkErr ("if step missing cond at " ++ path)
      some ((false, res), ⟨logStep est.rs "if" "if" [] path false res none none, est.now⟩)

/-- `McpExecutor._exec_wait_step` up to the poll loop: convert timeouts,
validate cond/tick/refresh, log the "wait started" entry, then enter the
loop. -/
def execWaitStep (fuel : Nat) (cfg : Cfg) (est : ExecSt) (skvs : Obj) (path : String)
    (maxSteps : Int) (perStep : Q) : Option ((Bool × Value) × ExecSt) :=
  match fuel with
  | 0 => none
  | f + 1 =>
    match pyFloat (pyOr ((dget skvs "timeout_s").getD .null) (.num (qi 60))) with
    | none => none
    | some timeout_s =>
      match pyFloat (pyOr ((dget skvs "poll_s").getD .null) (.num ⟨1, 2⟩)) with
      | none => none
      | some poll_s =>
        match (dget skvs "cond").getD .null with
        | .obj ckvs =>
          match pyOr ((dget skvs "tick").getD .null) (.arr []),
              pyOr ((dget skvs "refresh").getD .null) (.arr []) with
          | .arr tick, .arr refresh =>
            let started := est.now
            let rs := logStep est.rs "wait" "wait"
              [("timeout_s", .num timeout_s), ("poll_s", .num poll_s)] path true
              (.obj [("ok", .bool true), ("wait", .str "started")]) none none
            waitLoop f cfg ⟨rs, est.now⟩ ckvs tick refresh path maxSteps perStep
              started timeout_s poll_s
          | _, _ =>
            let res := mkErr ("wait tick/refresh must be arrays at " ++ path)
            some ((false, res), ⟨logStep est.rs "wait" "wait" [] path false res none none, est.now⟩)
        | _ =>
          let res := mkErr ("wait step missing cond at " ++ path)
          some ((false, res), ⟨logStep est.rs "wait" "wait" [] path false res none none, est.now⟩)

/-- The `while (time.time() - started) < timeout_s` poll loop of
`_exec_wait_step`: on each iteration check cancellation and the step budget,
run `tick` and `refresh` sub-steps (failures propagate), test the condition,
and otherwise sleep `poll_s` (the model's clock advances by exactly `poll_s`).
Exhausting the timeout is reported as success with a `wait:"timeout"`
result. -/
def waitLoop (fuel : Nat) (cfg : Cfg) (est : ExecSt) (cond : Obj) (tick refresh : List Value)
    (path : String) (maxSteps : Int) (perStep : Q) (started timeout_s poll_s : Q) :
    Option ((Bool × Value) × ExecSt) :=
  match fuel with
  | 0 => none
  | f + 1 =>
    if !qLt (qSub est.now started) timeout_s then
      let res : Value := .obj [("ok", .bool true), ("wait", .str "timeout"), ("timeout_s", .num timeout_s)]
      let rs := { est.rs with last := res }
      let rs := logStep rs "wait" "wait" [] path true res none none
      some ((true, res), ⟨rs, est.now⟩)
    else if est.rs.cancelled || est.rs.status = "cancelled" then
      let res := mkErr "cancelled"
      let rs := logStep est.rs "wait" "wait" [] path false res none none
      let rs := { rs with last := res }
      some ((false, res), ⟨rs, est.now⟩)
    else if maxSteps ≤ (est.rs.steps.length : Int) then
      let res := mkErr ("max_steps exceeded (" ++ toString maxSteps ++ ") during wait")
      let rs := logStep est.rs "wait" "wait" [] path false res none none
      let rs := { rs with last := res }
      some ((false, res), ⟨rs, est.now⟩)
    else
      match (if tick.isEmpty then some (true, est)
             else execSteps f cfg est tick (path ++ ".tick") 0 maxSteps perStep) with
      | none => none
      | some (false, est1) => some ((false, lastOrElse est1.rs "wait tick failed"), est1)
      | some (true, est1) =>
        match (if refresh.isEmpty then some (true, est1)
               else execSteps f cfg est1 refresh (path ++ ".refresh") 0 maxSteps perStep) with
        | none => none
        | some (false, est2) => some ((false, lastOrElse est2.rs "wait refresh failed"), est2)
        | some (true, est2) =>
          if evalCond f (.obj cond) (rstateOf est2.rs) then
            let res : Value := .obj [("ok", .bool true), ("wait", .str "satisfied")]
            let rs := { est2.rs with last := res }
            let rs := logStep rs "wait" "wait" [] path true res none none
            some ((true, res), ⟨rs, est2.now⟩)
          else
            waitLoop f cfg ⟨est2.rs, qAdd est2.now poll_s⟩ cond tick refresh path
              maxSteps perStep started timeout_s poll_s
end

/-- Python `min(a, b)` on integers: returns `b` only when `b < a`. -/
def iMin (a b : Int) : Int := if b < a then b else a

/-- `min(int(policy.get("max_steps", self.max_steps)), self.max_steps)`:
the effective step budget of a run. -/
def effMaxSteps (policy : Obj) (dflt : Int) : Option Int :=
  (match dget policy "max_steps" with
   | none => some dflt
   | some v => pyInt v).map (fun k => iMin k dflt)

/-- `min(float(policy.get("per_step_timeout_s", self.per_step_timeout_s)),
self.per_step_timeout_s)`: the effective per-step timeout of a run. -/
def effPerStep (policy : Obj) (dflt : Q) : Option Q :=
  (match dget policy "per_step_timeout_s" with
   | none => some dflt
   | some v => pyFloat v).map (fun x => qMin x dflt)

/-- Seeding of `state.vars` with `plan.vars` for keys not already present. -/
def seedFold (vars : Obj) : Obj → Obj
  | [] => vars
  | (k, v) :: rest => seedFold (if (dget vars k).isSome then vars else dset vars k v) rest

/-- Step 3 of `_run`: seed `vars` from `plan.get("vars") or {}` when it is a
dict (a truthy non-dict is silently ignored by the `isinstance` guard). -/
def seedVars (rs : McpRunState) (plan : Obj) : McpRunState :=
  match pyOr ((dget plan "vars").getD .null) (.obj []) with
  | .obj pvars => { rs with vars := seedFold rs.vars pvars }
  | _ => rs

/-- The first mutation `_run` performs (under the store lock): force the status
to "running" and clear error and `finished_ts`, whatever the current status. -/
def runStartUpdate (st : McpRunState) : McpRunState :=
  { st with status := "running", error := none, finished_ts := none }

/-- `McpExecutor._run` for an existing run: start-update, effective limits,
var seeding, the steps-shape check, the step-list runner, and the final
`finish` (cancelled / failed / done).  `none` models fuel exhaustion or an
uncaught exception killing the background thread (the run then never reaches
`finish`). -/
def runExec (fuel : Nat) (cfg : Cfg) (st0 : McpRunState) (now : Q) : Option McpRunState :=
  let st1 := runStartUpdate st0
  match pyOr ((dget st1.plan "policy").getD .null) (.obj []) with
  | .obj policy =>
    match effMaxSteps policy cfg.max_steps, effPerStep policy cfg.per_step_timeout_s with
    | some max_steps, some per_step =>
      let st2 := seedVars st1 st1.plan
      match pyOr ((dget st1.plan "steps").getD .null) (.arr []) with
      | .arr steps =>
        match execSteps fuel cfg ⟨st2, now⟩ steps "steps" 0 max_steps per_step with
        | none => none
        | some (ok, est) =>
          if est.rs.cancelled || est.rs.status = "cancelled" then
            some (storeFinish "cancelled" none est.now est.rs)
          else if !ok then
            some (storeFinish "failed" (some (errOr est.rs.error "execution failed")) est.now est.rs)
          else
            some (storeFinish "done" none est.now est.rs)
      | _ => some (storeFinish "failed" (some "plan.steps must be a list") now st2)
    | _, _ => none
  | _ => none

/-- A trivial configuration for concrete runs below. -/
def cfg0 (inv : String → Obj → InvokeOutcome) : Cfg :=
  { invoker := inv, allow_tools := none, max_steps := 20, per_step_timeout_s := qi 20 }

example :
    ((runExec 10 (cfg0 fun _ _ => .ret .null)
        { run_id := "r", created_ts := qi 0,
          plan := [("steps", .arr [.obj [("type", .str "set"), ("var", .str "x"),
            ("value", .num (qi 7))]])] }
        (qi 0)).map fun st => (st.status, dget st.vars "x")) =
      some ("done", some (.num (qi 7))) := rfl

/-- Does a value carry the given dict key? -/
def hasKey (v : Value) (k : String) : Bool :=
  match v with
  | .obj kvs => (dget kvs k).isSome
  | _ => false

/- ----------------------------------------------------------------
   Theorems for the claims
---------------------------------------------------------------- -/

/-- C1: the claim says a terminal status is never changed by any operation.
The code violates it: `_run`'s start block forces status back to "running"
even when an external `Cancel` already put the run in the terminal status
"cancelled" (reachable when `Cancel` lands between `ExecutePlan`'s `create`
and the background task's first instruction), and `finish` overwrites an
already-terminal status unconditionally (reachable when `Cancel` lands between
`_run`'s final cancellation check and its `finish("done")`).  This theorem
evaluates the code's own operations at that failing state: after `cancel`,
the status is terminal ("cancelled"), yet the run-start update maps it to
"running" and `finish("done")` maps it to "done". -/
theorem c1_terminal_status_reset :
    ((storeCreate "r" (qi 0) [] []).map fun st =>
      let c := storeCancel (qi 1) st
      (c.status, terminalStatus c.status, (runStartUpdate c).status,
        (storeFinish "done" none (qi 2) c).status))
      = some ("cancelled", true, "running", "done") := rfl

/-- C5: the tool-call timeout wrapper is a total function that always returns
a dict with an "ok" key: a timeout synthesizes `{ok:false, error:"tool timeout
after <n>s"}`; an invoker exception is normalized to `{ok:false, error:msg}`;
a non-dict return becomes `{ok:false, error:"tool returned non-dict"}`; a dict
lacking "ok" but carrying "error" is normalized to `{ok:false, error}`; a dict
with neither key gets `ok:true` prepended to its original fields; a dict that
already has "ok" is returned unchanged. -/
theorem c5_call_timeout_normalization (oc : InvokeOutcome) (t : Q) :
    hasKey (callWithTimeout oc t) "ok" = true
    ∧ callWithTimeout .timeout t
        = .obj [("ok", .bool false), ("error", .str ("tool timeout after " ++ qToStr t ++ "s"))]
    ∧ (∀ m, callWithTimeout (.exc m) t = .obj [("ok", .bool false), ("error", .str m)])
    ∧ (∀ v, isObjV v = false →
        callWithTimeout (.ret v) t
          = .obj [("ok", .bool false), ("error", .str "tool returned non-dict")])
    ∧ (∀ kvs e, dget kvs "ok" = none → dget kvs "error" = some e →
        callWithTimeout (.ret (.obj kvs)) t = .obj [("ok", .bool false), ("error", e)])
    ∧ (∀ kvs, dget kvs "ok" = none → dget kvs "error" = none →
        callWithTimeout (.ret (.obj kvs)) t = .obj (("ok", .bool true) :: kvs))
    ∧ (∀ kvs w, dget kvs "ok" = some w → callWithTimeout (.ret (.obj kvs)) t = .obj kvs) := by
  refine ⟨?_, rfl, fun m => rfl, ?_, ?_, ?_, ?_⟩
  · cases oc with
    | timeout => rfl
    | exc m => rfl
    | ret v =>
      cases v with
      | obj kvs =>
        simp only [callWithTimeout]
        rcases h1 : dget kvs "ok" with _ | w <;> rcases h2 : dget kvs "error" with _ | e <;>
          simp [hasKey, dget, h1, h2]
      | null => rfl
      | bool b => rfl
      | num q => rfl
      | str s => rfl
      | arr xs => rfl
  · intro v hv
    cases v <;> simp_all [isObjV, callWithTimeout, mkErr]
  · intro kvs e h1 h2
    simp [callWithTimeout, h1, h2]
  · intro kvs h1 h2
    simp [callWithTimeout, h1, h2]
  · intro kvs w h1
    simp [callWithTimeout, h1]

/-- C5 witness: a result map lacking "ok" but carrying "error" is normalized
to `{ok:false, error}` at a concrete input. -/
theorem c5_call_timeout_normalization_witness :
    callWithTimeout (.ret (.obj [("error", .str "boom")])) (qi 20)
      = .obj [("ok", .bool false), ("error", .str "boom")] :=
  (c5_call_timeout_normalization (.ret (.obj [("error", .str "boom")])) (qi 20)).2.2.2.2.1
    [("error", .str "boom")] (.str "boom") rfl rfl

/-- C6: for every plan policy, the effective limits are
`maxSteps = min(policy.max_steps, default)` and
`perStepTimeout = min(policy.per_step_timeout_s, default)`; an absent policy
field yields the executor default; whatever the policy says, the effective
value never exceeds the executor's configured ceiling. -/
theorem c6_effective_limits (policy : Obj) (dMax : Int) (dT : Q) :
    (dget policy "max_steps" = none → effMaxSteps policy dMax = some dMax)
    ∧ (∀ v k, dget policy "max_steps" = some v → pyInt v = some k →
        effMaxSteps policy dMax = some (iMin k dMax))
    ∧ (∀ m, effMaxSteps policy dMax = some m → m ≤ dMax)
    ∧ (dget policy "per_step_timeout_s" = none → effPerStep policy dT = some dT)
    ∧ (∀ v x, dget policy "per_step_timeout_s" = some v → pyFloat v = some x →
        effPerStep policy dT = some (qMin x dT))
    ∧ (∀ x, effPerStep policy dT = some x → qLe x dT = true) := by
  refine ⟨?_, ?_, ?_, ?_, ?_, ?_⟩
  · intro h
    simp [effMaxSteps, h, iMin]
  · intro v k h1 h2
    simp [effMaxSteps, h1, h2]
  · have hle : ∀ a b : Int, iMin a b ≤ b := by
      intro a b
      simp only [iMin]
      split <;> omega
    intro m hm
    rcases h1 : dget policy "max_steps" with _ | v <;> simp [effMaxSteps, h1] at hm
    · exact hm ▸ hle dMax dMax
    · rcases h2 : pyInt v with _ | k <;> simp [h2] at hm
      exact hm ▸ hle k dMax
  · intro h
    simp [effPerStep, h, qMin, qLt]
  · intro v x h1 h2
    simp [effPerStep, h1, h2]
  · intro x hx
    have key : ∀ a : Q, qLe (qMin a dT) dT = true := by
      intro a
      simp only [qMin, qLe, qLt]
      split <;> rename_i h
      · simp
      · simp at h ⊢
        omega
    rcases h1 : dget policy "per_step_timeout_s" with _ | v <;> simp [effPerStep, h1] at hx
    · subst hx
      simpa [qMin, qLt] using key dT
    · rcases h2 : pyFloat v with _ | a <;> simp [h2] at hx
      subst hx
      exact key a

/-- C6 witness: a policy `max_steps` of 5 under a default of 20 gives the
tightened effective budget 5. -/
theorem c6_effective_limits_witness :
    effMaxSteps [("max_steps", .num (qi 5))] 20 = some 5 ∧ (5 : Int) ≤ 20 :=
  ⟨(c6_effective_limits [("max_steps", .num (qi 5))] 20 (qi 20)).2.1
      (.num (qi 5)) 5 rfl rfl,
    by decide⟩

/-- Pushing a filter into a `List.all`. -/
theorem all_filter_orElse (p q : Value → Bool) (cs : List Value) :
    (cs.filter p).all q = cs.all fun c => !p c || q c := by
  induction cs with
  | nil => rfl
  | cons c rest ih =>
    by_cases hc : p c <;> simp [List.filter_cons, hc, ih]

/-- Pushing a filter into a `List.any`. -/
theorem any_filter_andAlso (p q : Value → Bool) (cs : List Value) :
    (cs.filter p).any q = cs.any fun c => p c && q c := by
  induction cs with
  | nil => rfl
  | cons c rest ih =>
    by_cases hc : p c <;> simp [List.filter_cons, hc, ih]

/-- Reading a dict right after writing the same key. -/
theorem dget_dset_self (d : Obj) (k : String) (v : Value) : dget (dset d k v) k = some v := by
  induction d with
  | nil => simp [dget, dset]
  | cons kv rest ih =>
    obtain ⟨k0, v0⟩ := kv
    by_cases h : k0 = k <;> simp [dget, dset, h, ih]

/-- Reading a dict after writing a different key. -/
theorem dget_dset_ne (d : Obj) (k k' : String) (v : Value) (h : k' ≠ k) :
    dget (dset d k v) k' = dget d k' := by
  have h' : ¬(k = k') := fun hh => h hh.symm
  induction d with
  | nil => simp [dget, dset, h']
  | cons kv rest ih =>
    obtain ⟨k0, v0⟩ := kv
    by_cases h0 : k0 = k
    · subst h0
      simp [dget, dset, h, h']
    · by_cases h1 : k0 = k' <;> simp [dget, dset, h, h0, h1, ih]

/-- `takeWhile (≠ '.')` over a dot-free prefix stops exactly at the first dot. -/
theorem takeWhile_no_dot (xs f : List Char) (h : ∀ c ∈ xs, c ≠ '.') :
    (xs ++ '.' :: f).takeWhile (fun c => decide (c ≠ '.')) = xs := by
  induction xs with
  | nil => simp [List.takeWhile_cons]
  | cons c rest ih =>
    have hc : c ≠ '.' := h c (by simp)
    have ih' := ih fun c' hc' => h c' (by simp [hc'])
    rw [List.cons_append, List.takeWhile_cons, decide_eq_true hc]
    simpa using ih'

/-- `dropWhile (≠ '.')` over a dot-free prefix drops exactly up to the first dot. -/
theorem dropWhile_no_dot (xs f : List Char) (h : ∀ c ∈ xs, c ≠ '.') :
    (xs ++ '.' :: f).dropWhile (fun c => decide (c ≠ '.')) = '.' :: f := by
  induction xs with
  | nil => simp [List.dropWhile_cons]
  | cons c rest ih =>
    have hc : c ≠ '.' := h c (by simp)
    have ih' := ih fun c' hc' => h c' (by simp [hc'])
    rw [List.cons_append, List.dropWhile_cons, decide_eq_true hc]
    simpa using ih'

/-- A pattern `q ++ "."` (with `q` dot-free) is a prefix of `xs ++ "." ++ rest`
(with `xs` dot-free) exactly when `xs = q`. -/
theorem isPrefixOf_dotted (q : List Char) :
    ∀ (xs rest : List Char), (∀ c ∈ q, c ≠ '.') → (∀ c ∈ xs, c ≠ '.') →
      (q ++ ['.']).isPrefixOf (xs ++ '.' :: rest) = (q == xs) := by
  induction q with
  | nil =>
    intro xs rest _ hxs
    cases xs with
    | nil => simp [List.isPrefixOf]
    | cons x xs' =>
      have hx : ¬('.' = x) := fun hh => hxs x (by simp) hh.symm
      simp [List.isPrefixOf, hx]
  | cons a q' ih =>
    intro xs rest hq hxs
    have ha : ¬(a = '.') := hq a (by simp)
    cases xs with
    | nil => simp [List.isPrefixOf, ha]
    | cons x xs' =>
      have hrec := ih xs' rest (fun c hc => hq c (by simp [hc])) (fun c hc => hxs c (by simp [hc]))
      simp [List.isPrefixOf, hrec]

/-- Resolving `$key.path` for a `key` that is dot-free and distinct from the
reserved prefixes `vars`/`last` reads `state.save[key]` and walks `path`. -/
theorem resolveRef_save (st : RState) (a f : String)
    (hdot : ∀ c ∈ a.data, c ≠ '.') (hav : a ≠ "vars") (hal : a ≠ "last") :
    resolveRef ("$" ++ a ++ "." ++ f) st
      = getPath ((dget st.save a).getD (.obj [])) (chSplitDots f.data) := by
  have hdata : ("$" ++ a ++ "." ++ f).data = '$' :: (a.data ++ '.' :: f.data) := by
    simp [String.data_append]
  have hv : (['v','a','r','s','.'].isPrefixOf (a.data ++ '.' :: f.data)) = false := by
    have := isPrefixOf_dotted ['v','a','r','s'] a.data f.data (by decide) hdot
    rw [show (['v','a','r','s'] ++ ['.']) = ['v','a','r','s','.'] from rfl] at this
    rw [this]
    cases hb : (['v','a','r','s'] == a.data)
    · rfl
    · exact absurd (show a = "vars" from congrArg String.mk (beq_iff_eq.mp hb).symm) hav
  have hl : (['l','a','s','t','.'].isPrefixOf (a.data ++ '.' :: f.data)) = false := by
    have := isPrefixOf_dotted ['l','a','s','t'] a.data f.data (by decide) hdot
    rw [show (['l','a','s','t'] ++ ['.']) = ['l','a','s','t','.'] from rfl] at this
    rw [this]
    cases hb : (['l','a','s','t'] == a.data)
    · rfl
    · exact absurd (show a = "last" from congrArg String.mk (beq_iff_eq.mp hb).symm) hal
  have hspan : (a.data ++ '.' :: f.data).span (fun c => decide (c ≠ '.'))
      = (a.data, '.' :: f.data) := by
    rw [List.span_eq_take_drop, takeWhile_no_dot _ _ hdot, dropWhile_no_dot _ _ hdot]
  simp only [resolveRef, hdata, hv, hl, hspan, Bool.false_eq_true, if_false]

/-- C7 counterexample to the claim as stated: with `saveAs = "vars"` the raw
result is stored under `save["vars"]`, but `$vars.label` is captured by the
resolver's reserved `vars.` prefix and reads run variables instead, so
`$vars.label` and `$kb_query.label` resolve differently (None vs "bottle"). -/
theorem c7_save_alias_counterexample :
    ((runExec 20 (cfg0 fun _ _ =>
          .ret (.obj [("ok", .bool true), ("found", .bool true), ("label", .str "bottle")]))
        { run_id := "r", created_ts := qi 0,
          plan := [("steps", .arr [.obj [("type", .str "tool"), ("name", .str "kb_query"),
            ("save_as", .str "vars")]])] } (qi 0)).map fun st =>
        (resolveRef "$vars.label" (rstateOf st), resolveRef "$kb_query.label" (rstateOf st)))
      = some (.null, .str "bottle")
    ∧ Value.null ≠ Value.str "bottle" :=
  ⟨rfl, fun h => Value.noConfusion h⟩

/-- C7 (amended): after a tool step that reaches the invoker wrapper with tool
name `n` and alias `a` (both already stripped, nonempty), the raw result is
stored under both `save[a]` (written first) and `save[n]`; consequently, when
neither `n` nor `a` is one of the reserved prefixes "vars"/"last" and neither
contains a dot, `"$a.f"` and `"$n.f"` resolve to the same value for every
field path `f`.  (An alias of "vars" or "last", or one containing a dot, is
shadowed by the resolver's special handling — see the counterexample.) -/
theorem c7_save_alias_resolution
    (cfg : Cfg) (est : ExecSt) (skvs : Obj) (path : String) (perStep : Q) (n a : String)
    (hn : dget skvs "name" = some (.str n))
    (ha : dget skvs "save_as" = some (.str a))
    (hnt : pyStrip n = n) (hat : pyStrip a = a)
    (hnne : n.data.isEmpty = false) (hane : a.data.isEmpty = false)
    (hndot : ∀ c ∈ n.data, c ≠ '.') (hadot : ∀ c ∈ a.data, c ≠ '.')
    (hnv : n ≠ "vars") (hnl : n ≠ "last") (hav : a ≠ "vars") (hal : a ≠ "last")
    (hallow : cfg.allow_tools = none)
    (hargs : dget skvs "args" = none) :
    dget (execToolStep cfg est skvs path perStep).2.rs.save a
        = some (execToolStep cfg est skvs path perStep).1.2
    ∧ dget (execToolStep cfg est skvs path perStep).2.rs.save n
        = some (execToolStep cfg est skvs path perStep).1.2
    ∧ ∀ f : String,
        resolveRef ("$" ++ a ++ "." ++ f) (rstateOf (execToolStep cfg est skvs path perStep).2.rs)
          = resolveRef ("$" ++ n ++ "." ++ f) (rstateOf (execToolStep cfg est skvs path perStep).2.rs) := by
  have hred : (execToolStep cfg est skvs path perStep).2.rs.save
      = dset (dset est.rs.save a (execToolStep cfg est skvs path perStep).1.2) n
          (execToolStep cfg est skvs path perStep).1.2 := by
    simp only [execToolStep, hn, ha, hnt, hat, hnne, hane, hallow, hargs, Option.getD,
      pyOr, pyTruthy, logStep]
    simp
  have hsa : dget (execToolStep cfg est skvs path perStep).2.rs.save a
      = some (execToolStep cfg est skvs path perStep).1.2 := by
    rw [hred]
    by_cases hna : a = n
    · rw [hna, dget_dset_self]
    · rw [dget_dset_ne _ _ _ _ hna, dget_dset_self]
  have hsn : dget (execToolStep cfg est skvs path perStep).2.rs.save n
      = some (execToolStep cfg est skvs path perStep).1.2 := by
    rw [hred, dget_dset_self]
  refine ⟨hsa, hsn, fun f => ?_⟩
  rw [resolveRef_save _ _ _ hadot hav hal, resolveRef_save _ _ _ hndot hnv hnl]
  simp only [rstateOf]
  rw [hsa, hsn]

/-- C7 witness: a tool step `name:"kb_query", saveAs:"bq"` whose invoker
returns `{ok:true, found:true, label:"bottle"}` makes `$bq.label` and
`$kb_query.label` resolve to the same value — both to `"bottle"`. -/
theorem c7_save_alias_resolution_witness :
    (resolveRef "$bq.label"
        (rstateOf (execToolStep
          (cfg0 fun _ _ =>
            .ret (.obj [("ok", .bool true), ("found", .bool true), ("label", .str "bottle")]))
          ⟨{ run_id := "r", created_ts := qi 0 }, qi 0⟩
          [("type", .str "tool"), ("name", .str "kb_query"), ("save_as", .str "bq")]
          "steps[0]" (qi 20)).2.rs)
      = resolveRef "$kb_query.label"
        (rstateOf (execToolStep
          (cfg0 fun _ _ =>
            .ret (.obj [("ok", .bool true), ("found", .bool true), ("label", .str "bottle")]))
          ⟨{ run_id := "r", created_ts := qi 0 }, qi 0⟩
          [("type", .str "tool"), ("name", .str "kb_query"), ("save_as", .str "bq")]
          "steps[0]" (qi 20)).2.rs))
    ∧ resolveRef "$bq.label"
        (rstateOf (execToolStep
          (cfg0 fun _ _ =>
            .ret (.obj [("ok", .bool true), ("found", .bool true), ("label", .str "bottle")]))
          ⟨{ run_id := "r", created_ts := qi 0 }, qi 0⟩
          [("type", .str "tool"), ("name", .str "kb_query"), ("save_as", .str "bq")]
          "steps[0]" (qi 20)).2.rs)
      = .str "bottle" :=
  ⟨(c7_save_alias_resolution
      (cfg0 fun _ _ =>
        .ret (.obj [("ok", .bool true), ("found", .bool true), ("label", .str "bottle")]))
      ⟨{ run_id := "r", created_ts := qi 0 }, qi 0⟩
      [("type", .str "tool"), ("name", .str "kb_query"), ("save_as", .str "bq")]
      "steps[0]" (qi 20) "kb_query" "bq" rfl rfl rfl rfl rfl rfl
      (by decide) (by decide)
      (by decide) (by decide) (by decide) (by decide)
      rfl rfl).2.2 "label",
    rfl⟩

/-- Does a result carry a truthy "error" field? (the test of `_exec_steps`'s
stop branch: `isinstance(result, dict) and result.get("error")`) -/
def errTruthy : Value → Bool
  | .obj kvs =>
    match dget kvs "error" with
    | some e => pyTruthy e
    | none => false
  | _ => false

/-- C3 counterexample to the claim as stated: under onFail "stop" (the
default) with a dispatched step that fails with a result carrying no error
field, `state.error` is not necessarily "set from the result's error field (or
a generic message)": an error already recorded by a nested runner is kept.
Here the if-step's else branch exhausts maxSteps=2, the if dispatch returns
ok=false with result `{ok:true, set:"a", ...}` (no error field — third
component below), and the run's final error is the nested
"max_steps exceeded (2)", which differs from the generic
"step failed at steps[0]". -/
theorem c3_onfail_counterexample :
    ((runExec 20 (cfg0 fun _ _ => .ret .null)
        { run_id := "r", created_ts := qi 0,
          plan := [("policy", .obj [("max_steps", .num (qi 2))]),
            ("steps", .arr [.obj [("type", .str "if"),
              ("cond", .obj [("op", .str "or"), ("conds", .arr [])]),
              ("else", .arr [
                .obj [("type", .str "set"), ("var", .str "a"), ("value", .num (qi 1))],
                .obj [("type", .str "set"), ("var", .str "b"), ("value", .num (qi 1))]])]])] }
        (qi 0)).map fun st => (st.status, st.error, errField st.last))
      = some ("failed", some "max_steps exceeded (2)", none)
    ∧ "max_steps exceeded (2)" ≠ "step failed at steps[0]" :=
  ⟨rfl, by decide⟩

/-- C3 (amended): when a dispatched step yields ok=false, the step runner
reads `onFail` (default "stop"; any non-string or unrecognized value also
gives "stop").  Under "stop" the runner returns false for the whole list:
`state.error` is set to the result's error field when that field is present
and truthy, and otherwise to a previously recorded `state.error` when one is
set, falling back to the generic "step failed at <path>".  Under "continue"
the step's fallback list (if truthy) runs as a nested step-list whose failure
propagates false (fatal); otherwise the failing step's result is recorded into
`state.last` and execution proceeds with the next sibling step. -/
theorem c3_onfail_policy
    (f : Nat) (cfg : Cfg) (est : ExecSt) (skvs : Obj) (rest : List Value)
    (path : String) (idx : Nat) (maxSteps : Int) (perStep : Q)
    (res : Value) (est1 : ExecSt)
    (hcanc : est.rs.cancelled = false) (hstat : est.rs.status ≠ "cancelled")
    (hbud : (est.rs.steps.length : Int) < maxSteps)
    (hd : dispatchStep f cfg est skvs (path ++ "[" ++ toString idx ++ "]") maxSteps perStep
            = some ((false, res), est1)) :
    (dget skvs "on_fail" = none → onFailMode skvs = "stop")
    ∧ (onFailMode skvs = "stop" ∨ onFailMode skvs = "continue")
    ∧ (∀ s, dget skvs "on_fail" = some (.str s) →
        pyStripLower s ≠ "stop" → pyStripLower s ≠ "continue" → onFailMode skvs = "stop")
    ∧ (onFailMode skvs = "stop" →
        execSteps (f + 1) cfg est (.obj skvs :: rest) path idx maxSteps perStep
          = some (false,
              ⟨stopErrorUpdate est1.rs res (path ++ "[" ++ toString idx ++ "]"), est1.now⟩))
    ∧ (∀ rkvs e sp, res = .obj rkvs → dget rkvs "error" = some e → pyTruthy e = true →
        stopErrorUpdate est1.rs res sp = failSet est1.rs (pyStr e))
    ∧ (∀ sp, errTruthy res = false →
        stopErrorUpdate est1.rs res sp
          = failSet est1.rs (errOr est1.rs.error ("step failed at " ++ sp)))
    ∧ (onFailMode skvs = "continue" →
        pyTruthy (pyOr ((dget skvs "fallback").getD .null) (.arr [])) = false →
        execSteps (f + 1) cfg est (.obj skvs :: rest) path idx maxSteps perStep
          = execSteps f cfg (recordLast est1 res) rest path (idx + 1) maxSteps perStep)
    ∧ (∀ fbs est2, onFailMode skvs = "continue" →
        dget skvs "fallback" = some (.arr fbs) → fbs ≠ [] →
        execSteps f cfg est1 fbs ((path ++ "[" ++ toString idx ++ "]") ++ ".fallback") 0 maxSteps perStep
          = some (false, est2) →
        execSteps (f + 1) cfg est (.obj skvs :: rest) path idx maxSteps perStep
          = some (false, est2))
    ∧ (∀ fbs est2, onFailMode skvs = "continue" →
        dget skvs "fallback" = some (.arr fbs) → fbs ≠ [] →
        execSteps f cfg est1 fbs ((path ++ "[" ++ toString idx ++ "]") ++ ".fallback") 0 maxSteps perStep
          = some (true, est2) →
        execSteps (f + 1) cfg est (.obj skvs :: rest) path idx maxSteps perStep
          = execSteps f cfg (recordLast est2 res) rest path (idx + 1) maxSteps perStep)
    ∧ (∀ rkvs, res = .obj rkvs →
        recordLast est1 res = ⟨{ est1.rs with last := res }, est1.now⟩) := by
  have hbud' : ¬ (maxSteps ≤ (est.rs.steps.length : Int)) := not_le.mpr hbud
  have hguard : (est.rs.cancelled || est.rs.status = "cancelled") = false := by
    simp [hcanc, hstat]
  refine ⟨?_, ?_, ?_, ?_, ?_, ?_, ?_, ?_, ?_, ?_⟩
  · intro h
    simp only [onFailMode, h, Option.getD]
    rfl
  · simp only [onFailMode]
    rcases hof : pyOr ((dget skvs "on_fail").getD .null) (.str "stop") with _ | b | q | s | xs | kvs
    · left; rfl
    · left; rfl
    · left; rfl
    · show (if pyStripLower s = "stop" ∨ pyStripLower s = "continue"
            then pyStripLower s else "stop") = "stop"
          ∨ (if pyStripLower s = "stop" ∨ pyStripLower s = "continue"
            then pyStripLower s else "stop") = "continue"
      by_cases hm : pyStripLower s = "stop" ∨ pyStripLower s = "continue"
      · rw [if_pos hm]; exact hm
      · rw [if_neg hm]; left; rfl
    · left; rfl
    · left; rfl
  · intro s hs hns hnc
    have hor : ¬ (pyStripLower s = "stop" ∨ pyStripLower s = "continue") := by
      rintro (h | h)
      · exact hns h
      · exact hnc h
    simp only [onFailMode, hs, Option.getD, pyOr]
    by_cases hsv : pyTruthy (.str s) = true
    · rw [if_pos hsv]
      show (if pyStripLower s = "stop" ∨ pyStripLower s = "continue"
          then pyStripLower s else "stop") = "stop"
      rw [if_neg hor]
    · rw [if_neg hsv]
      rfl
  · intro hm
    rw [execSteps, hguard]
    simp only [Bool.false_eq_true, if_false]
    rw [if_neg hbud']
    split
    · rename_i heq
      cases f with
      | zero => simp [dispatchStep] at hd
      | succ g => rw [dispatchStep, heq] at hd; simp at hd
    · rename_i val heq
      split
      · rename_i heq2
        rw [heq2] at hd
        exact absurd hd (by simp)
      · rename_i ok result est' heq2
        rw [heq2] at hd
        obtain ⟨⟨h1, h2⟩, h3⟩ : (ok = false ∧ result = res) ∧ est' = est1 := by
          injection hd with h
          injection h with ha hb
          injection ha with hx hy
          exact ⟨⟨hx, hy⟩, hb⟩
        subst h1
        subst h2
        subst h3
        simp only [Bool.false_eq_true, if_false]
        rw [if_pos hm]
  · intro rkvs e sp hres herr htr
    subst hres
    simp [stopErrorUpdate, herr, htr]
  · intro sp hth
    cases res with
    | obj rkvs =>
      simp only [errTruthy] at hth
      cases he : dget rkvs "error" with
      | none => simp [stopErrorUpdate, he]
      | some e =>
        rw [he] at hth
        have hth' : pyTruthy e = false := hth
        simp only [stopErrorUpdate, he]
        rw [if_neg (by simp [hth'])]
    | null => rfl
    | bool b => rfl
    | num q => rfl
    | str s => rfl
    | arr xs => rfl
  · intro hm hth
    have hm' : ¬ (onFailMode skvs = "stop") := by
      rw [hm]; decide
    have hth' : ¬ (pyTruthy (pyOr ((dget skvs "fallback").getD .null) (.arr [])) = true) := by
      simp [hth]
    rw [execSteps, hguard]
    simp only [Bool.false_eq_true, if_false]
    rw [if_neg hbud']
    split
    · rename_i heq
      cases f with
      | zero => simp [dispatchStep] at hd
      | succ g => rw [dispatchStep, heq] at hd; simp at hd
    · rename_i val heq
      split
      · rename_i heq2
        rw [heq2] at hd
        exact absurd hd (by simp)
      · rename_i ok result est' heq2
        rw [heq2] at hd
        obtain ⟨⟨h1, h2⟩, h3⟩ : (ok = false ∧ result = res) ∧ est' = est1 := by
          injection hd with h
          injection h with ha hb
          injection ha with hx hy
          exact ⟨⟨hx, hy⟩, hb⟩
        subst h1
        subst h2
        subst h3
        simp only [Bool.false_eq_true, if_false]
        rw [if_neg hm', if_neg hth']
  · intro fbs est2 hm hfb hne hfbrun
    have hm' : ¬ (onFailMode skvs = "stop") := by
      rw [hm]; decide
    have hfbv : pyOr ((dget skvs "fallback").getD .null) (.arr []) = .arr fbs := by
      cases fbs with
      | nil => exact absurd rfl hne
      | cons a l => simp [hfb, pyOr, pyTruthy]
    have htru : pyTruthy (pyOr ((dget skvs "fallback").getD .null) (.arr [])) = true := by
      rw [hfbv]
      cases fbs with
      | nil => exact absurd rfl hne
      | cons a l => simp [pyTruthy]
    rw [execSteps, hguard]
    simp only [Bool.false_eq_true, if_false]
    rw [if_neg hbud']
    split
    · rename_i heq
      cases f with
      | zero => simp [dispatchStep] at hd
      | succ g => rw [dispatchStep, heq] at hd; simp at hd
    · rename_i val heq
      split
      · rename_i heq2
        rw [heq2] at hd
        exact absurd hd (by simp)
      · rename_i ok result est' heq2
        rw [heq2] at hd
        obtain ⟨⟨h1, h2⟩, h3⟩ : (ok = false ∧ result = res) ∧ est' = est1 := by
          injection hd with h
          injection h with ha hb
          injection ha with hx hy
          exact ⟨⟨hx, hy⟩, hb⟩
        subst h1
        subst h2
        subst h3
        simp only [Bool.false_eq_true, if_false]
        rw [if_neg hm', if_pos htru]
        simp only [hfbv, hfbrun]
  · intro fbs est2 hm hfb hne hfbrun
    have hm' : ¬ (onFailMode skvs = "stop") := by
      rw [hm]; decide
    have hfbv : pyOr ((dget skvs "fallback").getD .null) (.arr []) = .arr fbs := by
      cases fbs with
      | nil => exact absurd rfl hne
      | cons a l => simp [hfb, pyOr, pyTruthy]
    have htru : pyTruthy (pyOr ((dget skvs "fallback").getD .null) (.arr [])) = true := by
      rw [hfbv]
      cases fbs with
      | nil => exact absurd rfl hne
      | cons a l => simp [pyTruthy]
    rw [execSteps, hguard]
    simp only [Bool.false_eq_true, if_false]
    rw [if_neg hbud']
    split
    · rename_i heq
      cases f with
      | zero => simp [dispatchStep] at hd
      | succ g => rw [dispatchStep, heq] at hd; simp at hd
    · rename_i val heq
      split
      · rename_i heq2
        rw [heq2] at hd
        exact absurd hd (by simp)
      · rename_i ok result est' heq2
        rw [heq2] at hd
        obtain ⟨⟨h1, h2⟩, h3⟩ : (ok = false ∧ result = res) ∧ est' = est1 := by
          injection hd with h
          injection h with ha hb
          injection ha with hx hy
          exact ⟨⟨hx, hy⟩, hb⟩
        subst h1
        subst h2
        subst h3
        simp only [Bool.false_eq_true, if_false]
        rw [if_neg hm', if_pos htru]
        simp only [hfbv, hfbrun]
  · intro rkvs hres
    subst hres
    rfl

/-- C3 witness: a failing tool step (invoker returns `{ok:false,error:"boom"}`)
with `onFail:"continue"` and no fallback proceeds to the next sibling with the
failure recorded in `state.last`; the theorem's continue branch is applied at
this concrete input. -/
theorem c3_onfail_policy_witness :
    execSteps 3 (cfg0 fun _ _ => .ret (mkErr "boom"))
        ⟨{ run_id := "r", created_ts := qi 0 }, qi 0⟩
        [.obj [("type", .str "tool"), ("name", .str "t"), ("on_fail", .str "continue")]]
        "steps" 0 20 (qi 20)
      = execSteps 2 (cfg0 fun _ _ => .ret (mkErr "boom"))
          (recordLast (execToolStep (cfg0 fun _ _ => .ret (mkErr "boom"))
              ⟨{ run_id := "r", created_ts := qi 0 }, qi 0⟩
              [("type", .str "tool"), ("name", .str "t"), ("on_fail", .str "continue")]
              "steps[0]" (qi 20)).2
            (mkErr "boom"))
          [] "steps" 1 20 (qi 20) :=
  (c3_onfail_policy 2 (cfg0 fun _ _ => .ret (mkErr "boom"))
      ⟨{ run_id := "r", created_ts := qi 0 }, qi 0⟩
      [("type", .str "tool"), ("name", .str "t"), ("on_fail", .str "continue")]
      [] "steps" 0 20 (qi 20) (mkErr "boom")
      (execToolStep (cfg0 fun _ _ => .ret (mkErr "boom"))
        ⟨{ run_id := "r", created_ts := qi 0 }, qi 0⟩
        [("type", .str "tool"), ("name", .str "t"), ("on_fail", .str "continue")]
        "steps[0]" (qi 20)).2
      rfl (by decide) (by decide) rfl).2.2.2.2.2.2.1 rfl rfl

/-- C4 counterexample to the claim as stated: a wait step with
`onFail:"continue"` and no following sibling swallows the budget failure —
the step log records "max_steps exceeded (1) during wait", yet the run ends
`status="done"`, not "failed". -/
theorem c4_max_steps_counterexample :
    ((runExec 20 (cfg0 fun _ _ => .ret .null)
        { run_id := "r", created_ts := qi 0,
          plan := [("policy", .obj [("max_steps", .num (qi 1))]),
            ("steps", .arr [.obj [("type", .str "wait"), ("timeout_s", .num (qi 3)),
              ("poll_s", .num (qi 1)),
              ("cond", .obj [("op", .str "or"), ("conds", .arr [])]),
              ("on_fail", .str "continue")]])] }
        (qi 0)).map fun st => (st.status, st.error, st.steps.map fun s => s.error))
      = some ("done", none, [none, some (.str "max_steps exceeded (1) during wait")])
    ∧ "done" ≠ "failed" :=
  ⟨rfl, by decide⟩

/-- C4 (amended): whenever the step log has reached the effective maxSteps
limit, the runner fails immediately at both check sites: before a step
dispatch the step list aborts with `state.error = "max_steps exceeded (N)"`
and returns false, and inside a wait loop the iteration logs and returns a
failing result with error "max_steps exceeded (N) during wait".  The run then
ends `status="failed"` when this failure propagates under the default
onFail "stop" chain; an enclosing step with onFail "continue" can swallow the
budget failure (see the counterexample). -/
theorem c4_max_steps_budget
    (f : Nat) (cfg : Cfg) (est : ExecSt) (skvs : Obj) (rest : List Value)
    (path : String) (idx : Nat) (maxSteps : Int) (perStep : Q)
    (cond : Obj) (tick refresh : List Value) (started timeout_s poll_s : Q)
    (hcanc : est.rs.cancelled = false) (hstat : est.rs.status ≠ "cancelled")
    (hbud : maxSteps ≤ (est.rs.steps.length : Int)) :
    execSteps (f + 1) cfg est (.obj skvs :: rest) path idx maxSteps perStep
        = some (false, ⟨failSet est.rs ("max_steps exceeded (" ++ toString maxSteps ++ ")"), est.now⟩)
    ∧ (failSet est.rs ("max_steps exceeded (" ++ toString maxSteps ++ ")")).error
        = some ("max_steps exceeded (" ++ toString maxSteps ++ ")")
    ∧ (qLt (qSub est.now started) timeout_s = true →
        waitLoop (f + 1) cfg est cond tick refresh path maxSteps perStep started timeout_s poll_s
          = some ((false, mkErr ("max_steps exceeded (" ++ toString maxSteps ++ ") during wait")),
              ⟨setLast
                 (logStep est.rs "wait" "wait" [] path false
                   (mkErr ("max_steps exceeded (" ++ toString maxSteps ++ ") during wait")) none none)
                 (mkErr ("max_steps exceeded (" ++ toString maxSteps ++ ") during wait")),
                est.now⟩)) := by
  have hguard : (est.rs.cancelled || est.rs.status = "cancelled") = false := by
    simp [hcanc, hstat]
  refine ⟨?_, rfl, ?_⟩
  · rw [execSteps, hguard]
    simp only [Bool.false_eq_true, if_false]
    rw [if_pos hbud]
  · intro hq
    rw [waitLoop, hq]
    simp only [Bool.not_true, Bool.false_eq_true, if_false]
    rw [hguard]
    simp only [Bool.false_eq_true, if_false]
    rw [if_pos hbud]
    rfl

/-- C4 witness: at a concrete input the pre-dispatch budget check fires and,
under the default onFail "stop", the whole run ends failed with the
"max_steps exceeded" message. -/
theorem c4_max_steps_budget_witness :
    execSteps 5 (cfg0 fun _ _ => .ret .null)
        ⟨McpRunState.mk "r" (qi 0) "running" [] [] [] [] (.obj [])
            [{ i := 0, kind := "set" }, { i := 1, kind := "set" }] none none false, qi 0⟩
        [.obj [("type", .str "set"), ("var", .str "x"), ("value", .num (qi 1))]]
        "steps" 0 2 (qi 20)
      = some (false,
          ⟨failSet (McpRunState.mk "r" (qi 0) "running" [] [] [] [] (.obj [])
              [{ i := 0, kind := "set" }, { i := 1, kind := "set" }] none none false)
            "max_steps exceeded (2)", qi 0⟩)
    ∧ ((runExec 20 (cfg0 fun _ _ => .ret .null)
        { run_id := "r", created_ts := qi 0,
          plan := [("policy", .obj [("max_steps", .num (qi 1))]),
            ("steps", .arr [.obj [("type", .str "wait"), ("timeout_s", .num (qi 3)),
              ("poll_s", .num (qi 1)),
              ("cond", .obj [("op", .str "or"), ("conds", .arr [])])]])] }
        (qi 0)).map fun st => (st.status, st.error))
      = some ("failed", some "max_steps exceeded (1) during wait") :=
  ⟨(c4_max_steps_budget 4 (cfg0 fun _ _ => .ret .null)
      ⟨McpRunState.mk "r" (qi 0) "running" [] [] [] [] (.obj [])
          [{ i := 0, kind := "set" }, { i := 1, kind := "set" }] none none false, qi 0⟩
      [("type", .str "set"), ("var", .str "x"), ("value", .num (qi 1))]
      [] "steps" 0 2 (qi 20) [] [] [] (qi 0) (qi 0) (qi 0)
      rfl (by decide) (by decide)).1,
    rfl⟩

/-- The successful soft-timeout result `{ok: true, wait: "timeout", timeout_s}`. -/
def waitTimeoutRes (t : Q) : Value :=
  .obj [("ok", .bool true), ("wait", .str "timeout"), ("timeout_s", .num t)]

/-- The poll loop with a never-true condition and no tick/refresh steps can
only exit through the timeout branch: whenever it returns, it returns success
with the soft-timeout result, having appended exactly the one timeout log
entry and rebound `last`. -/
theorem waitLoop_never_true (cfg : Cfg) (ckvs : Obj) (path : String)
    (maxSteps : Int) (perStep : Q) (started timeout_s poll_s : Q)
    (hcond : ∀ g st, evalCond g (.obj ckvs) st = false) :
    ∀ (fuel : Nat) (est : ExecSt) (out : (Bool × Value) × ExecSt),
      est.rs.cancelled = false → est.rs.status ≠ "cancelled" →
      (est.rs.steps.length : Int) < maxSteps →
      waitLoop fuel cfg est ckvs [] [] path maxSteps perStep started timeout_s poll_s = some out →
      out.1 = (true, waitTimeoutRes timeout_s)
      ∧ out.2.rs = logStep (setLast est.rs (waitTimeoutRes timeout_s)) "wait" "wait" [] path true
          (waitTimeoutRes timeout_s) none none := by
  intro fuel
  induction fuel with
  | zero =>
    intro est out _ _ _ h
    simp [waitLoop] at h
  | succ g ih =>
    intro est out hc hs hb h
    rw [waitLoop] at h
    by_cases hq : qLt (qSub est.now started) timeout_s = true
    · rw [hq] at h
      simp only [Bool.not_true, Bool.false_eq_true, if_false] at h
      rw [if_neg (show ¬ ((est.rs.cancelled || est.rs.status = "cancelled") = true) by
        simp [hc, hs])] at h
      rw [if_neg (not_le.mpr hb)] at h
      simp only [List.isEmpty_nil, if_true] at h
      rw [hcond g (rstateOf est.rs)] at h
      simp only [Bool.false_eq_true, if_false] at h
      exact ih ⟨est.rs, qAdd est.now poll_s⟩ out hc hs hb h
    · have hq' : qLt (qSub est.now started) timeout_s = false := by
        revert hq
        cases qLt (qSub est.now started) timeout_s <;> simp
      rw [hq'] at h
      simp only [Bool.not_false, if_true] at h
      injection h with h'
      subst h'
      exact ⟨rfl, rfl⟩

/-- Dispatch of a step whose normalized type is "wait". -/
theorem dispatchStep_wait (g : Nat) (cfg : Cfg) (est : ExecSt) (skvs : Obj) (path : String)
    (maxSteps : Int) (perStep : Q) (ht : stepTypeOf skvs = some "wait") :
    dispatchStep (g + 1) cfg est skvs path maxSteps perStep
      = execWaitStep g cfg est skvs path maxSteps perStep := by
  rw [dispatchStep, ht]
  rfl

/-- C2: a wait step whose condition never evaluates true and which has no
tick/refresh sub-steps is not a failure when its poll loop exhausts
`timeout_s`: the step returns ok=true with result `{wait:"timeout",
timeout_s}` (recorded into `state.last`), the runner then continues with the
subsequent steps (returning true when the wait was the last step), and a run
whose step list returns true un-cancelled is finished with status "done" and
no error. -/
theorem c2_wait_timeout_is_success
    (cfg : Cfg) (skvs ckvs : Obj) (tv pv : Q)
    (hcond : ∀ g st, evalCond g (.obj ckvs) st = false)
    (htype : stepTypeOf skvs = some "wait")
    (hcnd : dget skvs "cond" = some (.obj ckvs))
    (htv : pyFloat (pyOr ((dget skvs "timeout_s").getD .null) (.num (qi 60))) = some tv)
    (hpv : pyFloat (pyOr ((dget skvs "poll_s").getD .null) (.num ⟨1, 2⟩)) = some pv)
    (htick : pyOr ((dget skvs "tick").getD .null) (.arr []) = .arr [])
    (hrefresh : pyOr ((dget skvs "refresh").getD .null) (.arr []) = .arr []) :
    (∀ (g : Nat) (est : ExecSt) (out : (Bool × Value) × ExecSt) (path : String)
        (maxSteps : Int) (perStep : Q),
      est.rs.cancelled = false → est.rs.status ≠ "cancelled" →
      (est.rs.steps.length : Int) + 1 < maxSteps →
      execWaitStep g cfg est skvs path maxSteps perStep = some out →
      out.1 = (true, waitTimeoutRes tv)
      ∧ out.2.rs.cancelled = est.rs.cancelled
      ∧ out.2.rs.status = est.rs.status
      ∧ out.2.rs.error = est.rs.error
      ∧ out.2.rs.last = waitTimeoutRes tv
      ∧ out.2.rs.steps.length = est.rs.steps.length + 2)
    ∧ (∀ (g : Nat) (est : ExecSt) (out : (Bool × Value) × ExecSt) (rest : List Value)
        (path : String) (idx : Nat) (maxSteps : Int) (perStep : Q),
      est.rs.cancelled = false → est.rs.status ≠ "cancelled" →
      (est.rs.steps.length : Int) + 1 < maxSteps →
      execWaitStep g cfg est skvs (path ++ "[" ++ toString idx ++ "]") maxSteps perStep = some out →
      execSteps (g + 2) cfg est (.obj skvs :: rest) path idx maxSteps perStep
        = execSteps (g + 1) cfg out.2 rest path (idx + 1) maxSteps perStep
      ∧ execSteps (g + 2) cfg est [.obj skvs] path idx maxSteps perStep = some (true, out.2))
    ∧ (∀ (st0 : McpRunState) (now : Q) (fuel : Nat) (sl : List Value) (pol : Obj)
        (ms : Int) (ps : Q) (est' : ExecSt) (stF : McpRunState),
      pyOr ((dget st0.plan "policy").getD .null) (.obj []) = .obj pol →
      effMaxSteps pol cfg.max_steps = some ms →
      effPerStep pol cfg.per_step_timeout_s = some ps →
      pyOr ((dget st0.plan "steps").getD .null) (.arr []) = .arr sl →
      execSteps fuel cfg
          ⟨seedVars { st0 with status := "running", error := none, finished_ts := none } st0.plan,
            now⟩ sl "steps" 0 ms ps
        = some (true, est') →
      est'.rs.cancelled = false → est'.rs.status ≠ "cancelled" →
      runExec fuel cfg st0 now = some stF →
      stF.status = "done" ∧ stF.error = none) := by
  have key : ∀ (g : Nat) (est : ExecSt) (out : (Bool × Value) × ExecSt) (path : String)
      (maxSteps : Int) (perStep : Q),
      est.rs.cancelled = false → est.rs.status ≠ "cancelled" →
      (est.rs.steps.length : Int) + 1 < maxSteps →
      execWaitStep g cfg est skvs path maxSteps perStep = some out →
      out.1 = (true, waitTimeoutRes tv)
      ∧ out.2.rs = logStep (setLast (logStep est.rs "wait" "wait"
            [("timeout_s", .num tv), ("poll_s", .num pv)] path true
            (.obj [("ok", .bool true), ("wait", .str "started")]) none none)
          (waitTimeoutRes tv)) "wait" "wait" [] path true (waitTimeoutRes tv) none none := by
    intro g est out path maxSteps perStep hc hs hb hout
    cases g with
    | zero => simp [execWaitStep] at hout
    | succ g' =>
      rw [execWaitStep] at hout
      split at hout
      · exact absurd hout (by simp)
      · rename_i tv' htv'
        rw [htv] at htv'
        injection htv' with htve
        subst htve
        split at hout
        · exact absurd hout (by simp)
        · rename_i pv' hpv'
          rw [hpv] at hpv'
          injection hpv' with hpve
          subst hpve
          split at hout
          · rename_i ckvs' hck
            rw [hcnd] at hck
            simp only [Option.getD_some] at hck
            injection hck with hcke
            subst hcke
            split at hout
            · rename_i tick' refresh' hti hre
              rw [htick] at hti
              injection hti with htie
              subst htie
              rw [hrefresh] at hre
              injection hre with hree
              subst hree
              have hb1 : (((logStep est.rs "wait" "wait"
                  [("timeout_s", .num tv), ("poll_s", .num pv)] path true
                  (.obj [("ok", .bool true), ("wait", .str "started")]) none none).steps.length : Int))
                  < maxSteps := by
                simp only [logStep, List.length_append, List.length_cons, List.length_nil]
                omega
              exact waitLoop_never_true cfg ckvs path maxSteps perStep est.now tv pv hcond g'
                ⟨logStep est.rs "wait" "wait" [("timeout_s", .num tv), ("poll_s", .num pv)] path true
                  (.obj [("ok", .bool true), ("wait", .str "started")]) none none, est.now⟩
                out hc hs hb1 hout
            · rename_i hne
              exact (hne [] [] htick hrefresh).elim
          · rename_i hne
            exact (hne ckvs (by rw [hcnd]; rfl)).elim
  refine ⟨?_, ?_, ?_⟩
  · intro g est out path maxSteps perStep hc hs hb hout
    obtain ⟨h1, h2⟩ := key g est out path maxSteps perStep hc hs hb hout
    refine ⟨h1, ?_, ?_, ?_, ?_, ?_⟩ <;> rw [h2]
    · exact hc.symm ▸ rfl
    · rfl
    · rfl
    · rfl
    · simp [logStep, setLast]
  · intro g est out rest path idx maxSteps perStep hc hs hb hout
    obtain ⟨h1, _⟩ := key g est out (path ++ "[" ++ toString idx ++ "]") maxSteps perStep hc hs hb hout
    have hguard : (est.rs.cancelled || est.rs.status = "cancelled") = false := by
      simp [hc, hs]
    have hbud' : ¬ (maxSteps ≤ (est.rs.steps.length : Int)) := by omega
    constructor
    · rw [execSteps, hguard]
      simp only [Bool.false_eq_true, if_false]
      rw [if_neg hbud', htype]
      split
      · rename_i heq
        exact absurd heq (by simp)
      · rename_i val heq
        split
        · rename_i heq2
          rw [dispatchStep_wait g cfg est skvs _ maxSteps perStep htype, hout] at heq2
          exact absurd heq2 (by simp)
        · rename_i ok result est1 heq2
          rw [dispatchStep_wait g cfg est skvs _ maxSteps perStep htype, hout] at heq2
          injection heq2 with h'
          have hok : (ok, result) = (true, waitTimeoutRes tv) := by
            rw [h'] at h1
            exact h1
          have hest1 : out.2 = est1 := by rw [h']
          obtain ⟨hoke, _⟩ : ok = true ∧ result = waitTimeoutRes tv := by
            injection hok with ha hb'
            exact ⟨ha, hb'⟩
          subst hoke
          rw [if_pos rfl, hest1]
    · rw [execSteps, hguard]
      simp only [Bool.false_eq_true, if_false]
      rw [if_neg hbud', htype]
      split
      · rename_i heq
        exact absurd heq (by simp)
      · rename_i val heq
        split
        · rename_i heq2
          rw [dispatchStep_wait g cfg est skvs _ maxSteps perStep htype, hout] at heq2
          exact absurd heq2 (by simp)
        · rename_i ok result est1 heq2
          rw [dispatchStep_wait g cfg est skvs _ maxSteps perStep htype, hout] at heq2
          injection heq2 with h'
          have hok : (ok, result) = (true, waitTimeoutRes tv) := by
            rw [h'] at h1
            exact h1
          have hest1 : out.2 = est1 := by rw [h']
          obtain ⟨hoke, _⟩ : ok = true ∧ result = waitTimeoutRes tv := by
            injection hok with ha hb'
            exact ⟨ha, hb'⟩
          subst hoke
          rw [if_pos rfl, ← hest1]
          rw [execSteps]
  · intro st0 now fuel sl pol ms ps est' stF hpol hms hps hsteps hexec hcanc' hstat' hrun
    rw [runExec] at hrun
    simp only [runStartUpdate] at hrun
    rw [hsteps] at hrun
    split at hrun
    · rename_i policy hpol'
      rw [hpol] at hpol'
      injection hpol' with hpe
      subst hpe
      split at hrun
      · rename_i ms' ps' hms' hps'
        rw [hms] at hms'
        injection hms' with hmse
        subst hmse
        rw [hps] at hps'
        injection hps' with hpse
        subst hpse
        split at hrun
        · rename_i cs hcs
          injection hcs with hcs'
          subst hcs'
          split at hrun
          · rename_i hex
            rw [hexec] at hex
            exact absurd hex (by simp)
          · rename_i ok est2 hex
            rw [hexec] at hex
            injection hex with h'
            obtain ⟨hoke, heste⟩ : true = ok ∧ est' = est2 := by
              injection h' with ha hb'
              exact ⟨ha, hb'⟩
            subst heste
            subst hoke
            rw [if_neg (show ¬ ((est'.rs.cancelled || est'.rs.status = "cancelled") = true) by
              simp [hcanc', hstat'])] at hrun
            simp only [Bool.not_true, Bool.false_eq_true, if_false] at hrun
            injection hrun with h''
            subst h''
            exact ⟨rfl, rfl⟩
        · rename_i hne
          exact (hne sl rfl).elim
      · exact absurd hrun (by simp)
    · exact absurd hrun (by simp)

/-- Configuration for the concrete C2 wait scenario. -/
def c2cfg : Cfg := cfg0 fun _ _ => .ret .null

/-- A condition `{op: "or", conds: []}` that never evaluates true. -/
def c2ckvs : Obj := [("op", Value.str "or"), ("conds", Value.arr [])]

/-- A wait step with `timeout_s` 3, `poll_s` 1 and a never-true condition. -/
def c2skvs : Obj :=
  [("type", Value.str "wait"), ("timeout_s", Value.num (qi 3)),
   ("poll_s", Value.num (qi 1)), ("cond", Value.obj c2ckvs)]

/-- A run whose plan is the single wait step of the C2 scenario. -/
def c2st0 : McpRunState :=
  McpRunState.mk "r" (qi 0) "running" [("steps", Value.arr [Value.obj c2skvs])]
    [] [] [] (.obj []) [] none none false

/-- Witness for C2 at the concrete scenario: the wait step (timeout_s 3,
poll_s 1, empty-"or" condition) returns ok=true with the soft-timeout result,
logs two entries, sets no error, and the whole run finishes "done" with no
error. -/
theorem c2_wait_timeout_is_success_witness :
    (execWaitStep 10 c2cfg
        ⟨McpRunState.mk "r" (qi 0) "running" [] [] [] [] (.obj []) [] none none false, qi 0⟩
        c2skvs "steps[0]" 20 (qi 20)).map
        (fun out => (out.1, out.2.rs.status, out.2.rs.error, out.2.rs.last,
          out.2.rs.steps.length))
      = some ((true, waitTimeoutRes (qi 3)), "running", none, waitTimeoutRes (qi 3), 2)
    ∧ (runExec 10 c2cfg c2st0 (qi 0)).map (fun st => (st.status, st.error))
      = some ("done", none) := by
  have hmain := c2_wait_timeout_is_success c2cfg c2skvs c2ckvs (qi 3) (qi 1)
    (fun g st => by cases g with | zero => rfl | succ g => rfl)
    rfl rfl rfl rfl rfl rfl
  constructor
  · obtain ⟨out, hout⟩ : ∃ out, execWaitStep 10 c2cfg
        ⟨McpRunState.mk "r" (qi 0) "running" [] [] [] [] (.obj []) [] none none false, qi 0⟩
        c2skvs "steps[0]" 20 (qi 20) = some out := ⟨_, rfl⟩
    have h := hmain.1 10
      ⟨McpRunState.mk "r" (qi 0) "running" [] [] [] [] (.obj []) [] none none false, qi 0⟩
      out "steps[0]" 20 (qi 20) rfl (by decide) (by decide) hout
    rw [hout]
    show some (out.1, out.2.rs.status, out.2.rs.error, out.2.rs.last, out.2.rs.steps.length)
      = some ((true, waitTimeoutRes (qi 3)), "running", none, waitTimeoutRes (qi 3), 2)
    rw [h.1, h.2.2.1, h.2.2.2.1, h.2.2.2.2.1, h.2.2.2.2.2]
    rfl
  · obtain ⟨est2, hexec, hcanc, hstat⟩ : ∃ e, execSteps 10 c2cfg
        ⟨seedVars { c2st0 with status := "running", error := none, finished_ts := none }
          c2st0.plan, qi 0⟩ [Value.obj c2skvs] "steps" 0 20 (qi 20) = some (true, e)
        ∧ e.rs.cancelled = false ∧ e.rs.status ≠ "cancelled" := ⟨_, rfl, rfl, by decide⟩
    obtain ⟨stF, hrun⟩ : ∃ s, runExec 10 c2cfg c2st0 (qi 0) = some s := ⟨_, rfl⟩
    have h := hmain.2.2 c2st0 (qi 0) 10 [Value.obj c2skvs] [] 20 (qi 20) est2 stF
      rfl rfl rfl rfl hexec hcanc hstat hrun
    rw [hrun]
    show some (stF.status, stF.error) = some ("done", none)
    rw [h.1, h.2]

/-- With the cancelled flag set (or the status already "cancelled"), the
step-list runner returns false immediately on a nonempty list, leaving the
state untouched. -/
theorem execSteps_cons_cancelled (g : Nat) (cfg : Cfg) (est : ExecSt) (s : Value)
    (rest : List Value) (path : String) (idx : Nat) (maxSteps : Int) (perStep : Q)
    (hc : (est.rs.cancelled || est.rs.status = "cancelled") = true) :
    execSteps (g + 1) cfg est (s :: rest) path idx maxSteps perStep = some (false, est) := by
  cases s with
  | obj skvs => rw [execSteps, if_pos hc]
  | null =>
    show (if est.rs.cancelled || est.rs.status = "cancelled" then some (false, est)
        else some (false, ⟨failSet est.rs ("invalid step at " ++ path ++ "[" ++ toString idx ++ "]"),
          est.now⟩))
      = some (false, est)
    rw [if_pos hc]
  | bool b =>
    show (if est.rs.cancelled || est.rs.status = "cancelled" then some (false, est)
        else some (false, ⟨failSet est.rs ("invalid step at " ++ path ++ "[" ++ toString idx ++ "]"),
          est.now⟩))
      = some (false, est)
    rw [if_pos hc]
  | num q =>
    show (if est.rs.cancelled || est.rs.status = "cancelled" then some (false, est)
        else some (false, ⟨failSet est.rs ("invalid step at " ++ path ++ "[" ++ toString idx ++ "]"),
          est.now⟩))
      = some (false, est)
    rw [if_pos hc]
  | str s0 =>
    show (if est.rs.cancelled || est.rs.status = "cancelled" then some (false, est)
        else some (false, ⟨failSet est.rs ("invalid step at " ++ path ++ "[" ++ toString idx ++ "]"),
          est.now⟩))
      = some (false, est)
    rw [if_pos hc]
  | arr xs =>
    show (if est.rs.cancelled || est.rs.status = "cancelled" then some (false, est)
        else some (false, ⟨failSet est.rs ("invalid step at " ++ path ++ "[" ++ toString idx ++ "]"),
          est.now⟩))
      = some (false, est)
    rw [if_pos hc]

/-- With the cancelled flag set, a step-list runner invocation that returns at
all returns with the state untouched, and returns false when steps remain. -/
theorem execSteps_cancelled_state (fuel : Nat) (cfg : Cfg) (est : ExecSt) (steps : List Value)
    (path : String) (idx : Nat) (maxSteps : Int) (perStep : Q) (r : Bool × ExecSt)
    (hc : est.rs.cancelled = true)
    (h : execSteps fuel cfg est steps path idx maxSteps perStep = some r) :
    r.2 = est ∧ (steps ≠ [] → r.1 = false) := by
  cases fuel with
  | zero => simp [execSteps] at h
  | succ g =>
    cases steps with
    | nil =>
      rw [execSteps] at h
      injection h with h'
      subst h'
      exact ⟨rfl, fun hne => absurd rfl hne⟩
    | cons s rest =>
      rw [execSteps_cons_cancelled g cfg est s rest path idx maxSteps perStep (by simp [hc])] at h
      injection h with h'
      subst h'
      exact ⟨rfl, fun _ => rfl⟩

/-- The var-seeding step touches only `vars`. -/
theorem seedVars_fields (rs : McpRunState) (p : Obj) :
    (seedVars rs p).cancelled = rs.cancelled ∧ (seedVars rs p).status = rs.status
      ∧ (seedVars rs p).steps = rs.steps ∧ (seedVars rs p).error = rs.error := by
  rw [seedVars]
  split
  · exact ⟨rfl, rfl, rfl, rfl⟩
  · exact ⟨rfl, rfl, rfl, rfl⟩

/-- C8: cancellation is cooperative: the flag is tested at the top of every
step-list iteration (once set, the next iteration returns false without
dispatching or logging anything) and at the top of every wait-loop iteration
(the in-flight wait step ends with a `cancelled` failure result, its own final
log entry, within the current poll interval); and a run whose cancelled flag
is set finishes with status "cancelled" and no run-level error, its step log
left exactly as the last completed step left it. -/
theorem c8_cooperative_cancellation
    (cfg : Cfg) (est : ExecSt) (f : Nat) (step : Value) (rest : List Value)
    (path : String) (idx : Nat) (maxSteps : Int) (perStep : Q)
    (cond : Obj) (tick refresh : List Value) (started timeout_s poll_s : Q)
    (hcanc : est.rs.cancelled = true) :
    execSteps (f + 1) cfg est (step :: rest) path idx maxSteps perStep = some (false, est)
    ∧ (qLt (qSub est.now started) timeout_s = true →
        waitLoop (f + 1) cfg est cond tick refresh path maxSteps perStep started timeout_s poll_s
          = some ((false, mkErr "cancelled"),
              ⟨setLast (logStep est.rs "wait" "wait" [] path false (mkErr "cancelled") none none)
                 (mkErr "cancelled"), est.now⟩))
    ∧ (∀ (st0 : McpRunState) (now : Q) (fuel : Nat) (sl : List Value) (stF : McpRunState),
        st0.cancelled = true →
        pyOr ((dget st0.plan "steps").getD .null) (.arr []) = .arr sl →
        runExec fuel cfg st0 now = some stF →
        stF.status = "cancelled" ∧ stF.error = none ∧ stF.steps = st0.steps) := by
  refine ⟨?_, ?_, ?_⟩
  · exact execSteps_cons_cancelled f cfg est step rest path idx maxSteps perStep (by simp [hcanc])
  · intro hq
    rw [waitLoop, hq]
    simp only [Bool.not_true, Bool.false_eq_true, if_false]
    rw [if_pos (show (est.rs.cancelled || est.rs.status = "cancelled") = true by simp [hcanc])]
    rfl
  · intro st0 now fuel sl stF hc0 hsteps hrun
    rw [runExec] at hrun
    simp only [runStartUpdate] at hrun
    rw [hsteps] at hrun
    split at hrun
    · rename_i policy hpol
      split at hrun
      · rename_i ms ps hms hps
        split at hrun
        · rename_i cs hcs
          injection hcs with hcs'
          subst hcs'
          split at hrun
          · exact absurd hrun (by simp)
          · rename_i ok est' hex
            have hcanc2 : (seedVars
                { st0 with status := "running", error := none, finished_ts := none }
                st0.plan).cancelled = true := by
              rw [(seedVars_fields _ _).1]
              exact hc0
            have hr := execSteps_cancelled_state fuel cfg
              ⟨seedVars { st0 with status := "running", error := none, finished_ts := none }
                st0.plan, now⟩
              sl "steps" 0 ms ps (ok, est') hcanc2 hex
            have he' : est' = ExecSt.mk (seedVars
                { st0 with status := "running", error := none, finished_ts := none }
                st0.plan) now :=
              hr.1
            subst he'
            rw [if_pos (by simp only [Bool.or_eq_true]; left; exact hcanc2)] at hrun
            injection hrun with h'
            subst h'
            refine ⟨rfl, rfl, ?_⟩
            show (seedVars { st0 with status := "running", error := none, finished_ts := none }
                st0.plan).steps
              = st0.steps
            rw [(seedVars_fields _ _).2.2.1]
        · rename_i hne
          exact (hne sl rfl).elim
      · exact absurd hrun (by simp)
    · exact absurd hrun (by simp)

/-- C8 witness: a run whose cancelled flag is already set when the background
task starts finishes with status "cancelled", no error, and nothing logged. -/
theorem c8_cooperative_cancellation_witness :
    runExec 20 (cfg0 fun _ _ => .ret .null)
        (McpRunState.mk "r" (qi 0) "running" [("steps", .arr [])] [] [] [] (.obj []) [] none none true)
        (qi 0)
      = some (McpRunState.mk "r" (qi 0) "cancelled" [("steps", .arr [])] [] [] [] (.obj [])
          [] none (some (qi 0)) true)
    ∧ (McpRunState.mk "r" (qi 0) "cancelled" [("steps", .arr [])] [] [] [] (.obj [])
        [] none (some (qi 0)) true).status = "cancelled"
    ∧ (McpRunState.mk "r" (qi 0) "cancelled" [("steps", .arr [])] [] [] [] (.obj [])
        [] none (some (qi 0)) true).error = none
    ∧ (McpRunState.mk "r" (qi 0) "cancelled" [("steps", .arr [])] [] [] [] (.obj [])
        [] none (some (qi 0)) true).steps
      = (McpRunState.mk "r" (qi 0) "running" [("steps", .arr [])] [] [] [] (.obj [])
          [] none none true).steps :=
  ⟨rfl,
    (c8_cooperative_cancellation (cfg0 fun _ _ => .ret .null)
        ⟨McpRunState.mk "r" (qi 0) "running" [("steps", .arr [])] [] [] [] (.obj [])
            [] none none true, qi 0⟩
        0 .null [] "p" 0 0 (qi 0) [] [] [] (qi 0) (qi 0) (qi 0) rfl).2.2
      (McpRunState.mk "r" (qi 0) "running" [("steps", .arr [])] [] [] [] (.obj [])
        [] none none true)
      (qi 0) 20 []
      (McpRunState.mk "r" (qi 0) "cancelled" [("steps", .arr [])] [] [] [] (.obj [])
        [] none (some (qi 0)) true)
      rfl rfl rfl⟩

/-- C10: for every state, an `and` condition evaluates each child only when it
is a dict — non-dict children are skipped, not falsifying — and is true exactly
when every remaining dict child is true (so an empty or dict-free `conds` list
makes `and` true); dually `or` is true exactly when some dict child is true
(so an empty or dict-free list makes `or` false). -/
theorem c10_and_or_skip_non_dicts (f : Nat) (cs : List Value) (state : RState) :
    evalCond (f + 1) (.obj [("op", .str "and"), ("conds", .arr cs)]) state
        = cs.all (fun c => !isObjV c || evalCond f c state)
    ∧ evalCond (f + 1) (.obj [("op", .str "or"), ("conds", .arr cs)]) state
        = cs.any (fun c => isObjV c && evalCond f c state)
    ∧ evalCond (f + 1) (.obj [("op", .str "and"), ("conds", .arr [])]) state = true
    ∧ evalCond (f + 1) (.obj [("op", .str "or"), ("conds", .arr [])]) state = false := by
  refine ⟨?_, ?_, rfl, rfl⟩
  · show (cs.filter fun c => isObjV c).all (fun c => evalCond f c state)
        = cs.all fun c => !isObjV c || evalCond f c state
    exact all_filter_orElse _ _ cs
  · show (cs.filter fun c => isObjV c).any (fun c => evalCond f c state)
        = cs.any fun c => isObjV c && evalCond f c state
    exact any_filter_andAlso _ _ cs

/-! ### A heap model for `McpRunStore.to_dict` (run_store.py)

The flat `McpRunState` model above cannot express Python object identity, so
the copy-out behaviour of `to_dict` (which builds its result from shallow
`dict(...)` copies) is modelled here over an explicit heap: a `PVal` is either
an immutable scalar or a reference to a heap cell, a heap cell holds a dict or
a list, and mutation is an update of a cell in place. -/

/-- A Python value in the heap model: an immutable scalar (reusing `Value` for
its payload) or a reference to a mutable heap object. -/
inductive PVal where
  | prim (v : Value)
  | ref (a : Nat)

/-- A mutable heap object: a dict or a list. -/
inductive PObj where
  | pdict (kvs : List (String × PVal))
  | plist (xs : List PVal)

/-- A heap: an association list of allocated cells plus the next fresh
address. -/
structure Heap where
  cells : List (Nat × PObj)
  next : Nat

/-- First cell with the given address. -/
def cellsGet : List (Nat × PObj) → Nat → Option PObj
  | [], _ => none
  | c :: rest, a => if c.1 = a then some c.2 else cellsGet rest a

/-- Dereference an address. -/
def hget (h : Heap) (a : Nat) : Option PObj :=
  cellsGet h.cells a

/-- In-place mutation of the object at an address (a no-op on a dangling
address), leaving every other cell alone. -/
def hset (h : Heap) (a : Nat) (o : PObj) : Heap :=
  ⟨h.cells.map fun c => if c.1 = a then (a, o) else c, h.next⟩

/-- Allocation of a fresh object, returning the new heap and the address. -/
def halloc (h : Heap) (o : PObj) : Heap × Nat :=
  (⟨h.cells ++ [(h.next, o)], h.next + 1⟩, h.next)

/-- Every allocated address is below `next`. -/
def wfHeap (h : Heap) : Prop :=
  ∀ c ∈ h.cells, c.1 < h.next

/-- `h'` preserves every cell of `h` and allocates at least as far. -/
def heapExt (h h' : Heap) : Prop :=
  (∀ b o, cellsGet h.cells b = some o → cellsGet h'.cells b = some o) ∧ h.next ≤ h'.next

/-- `dict(x or {})` applied to the dict at address `a`: a fresh dict cell with
the same immediate entries (inner references are shared, not copied); `none`
models the `TypeError` on a non-dict object or a dangling reference, which
cannot arise for the dict-valued fields `to_dict` reads. -/
def copyDict (h : Heap) (a : Nat) : Option (Heap × Nat) :=
  match hget h a with
  | some (.pdict kvs) => some (halloc h (.pdict kvs))
  | _ => none

/-- `None`-or-number fields of a step dict. -/
def optQ : Option Q → PVal
  | none => .prim .null
  | some q => .prim (.num q)

/-- `None`-or-bool fields of a step dict. -/
def optB : Option Bool → PVal
  | none => .prim .null
  | some b => .prim (.bool b)

/-- `None`-or-string fields of a step dict. -/
def optS : Option String → PVal
  | none => .prim .null
  | some s => .prim (.str s)

/-- A step record in the heap model: `args` and `result` are references to
heap dicts, the remaining fields are scalars (as in the `McpRunStep`
dataclass). -/
structure HStep where
  i : Int
  kind : String
  name : String
  args : Nat
  started_ts : Option Q
  ended_ts : Option Q
  ok : Option Bool
  result : Nat
  error : Option String

/-- A run state in the heap model: the five dict fields are references to
heap dicts, `steps` is the list of step records, the rest are scalars (as in
the `McpRunState` dataclass). -/
structure HRun where
  run_id : String
  created_ts : Q
  status : String
  plan : Nat
  initial_state : Nat
  vars : Nat
  save : Nat
  last : Nat
  steps : List HStep
  error : Option String
  finished_ts : Option Q
  cancelled : Bool

/-- One element of `steps_out`: the step dict literal of `to_dict`, with
`args` and `result` shallow-copied via `dict(... or {})` and the scalar
fields copied by value; key order follows the source. -/
def stepOutH (h : Heap) (s : HStep) : Option (Heap × PObj) :=
  match copyDict h s.args with
  | none => none
  | some (h1, aAddr) =>
    match copyDict h1 s.result with
    | none => none
    | some (h2, rAddr) =>
      some (h2, .pdict [
        ("i", .prim (.num (qi s.i))),
        ("kind", .prim (.str s.kind)),
        ("name", .prim (.str s.name)),
        ("args", .ref aAddr),
        ("started_ts", optQ s.started_ts),
        ("ended_ts", optQ s.ended_ts),
        ("ok", optB s.ok),
        ("result", .ref rAddr),
        ("error", optS s.error)])

/-- The `steps_out` list comprehension: each step dict is allocated on the
heap and the list holds references to those fresh dicts. -/
def stepsOutH : Heap → List HStep → Option (Heap × List PVal)
  | h, [] => some (h, [])
  | h, s :: rest =>
    match stepOutH h s with
    | none => none
    | some (h1, o) =>
      match stepsOutH (halloc h1 o).1 rest with
      | none => none
      | some (h2, xs) => some (h2, .ref (halloc h1 o).2 :: xs)

/-- `McpRunStore.to_dict`: builds `steps_out`, allocates the list object,
then the return dict literal in source key order, shallow-copying the five
dict fields via `dict(... or {})` and copying scalars by value; returns the
final heap and the address of the serialization. -/
def toDictH (h : Heap) (st : HRun) : Option (Heap × Nat) :=
  match stepsOutH h st.steps with
  | none => none
  | some (h1, stepRefs) =>
    match copyDict (halloc h1 (.plist stepRefs)).1 st.plan with
    | none => none
    | some (h2, pa) =>
      match copyDict h2 st.initial_state with
      | none => none
      | some (h3, ia) =>
        match copyDict h3 st.vars with
        | none => none
        | some (h4, va) =>
          match copyDict h4 st.save with
          | none => none
          | some (h5, sa) =>
            match copyDict h5 st.last with
            | none => none
            | some (h6, la) =>
              some (halloc h6 (.pdict [
                ("run_id", .prim (.str st.run_id)),
                ("created_ts", .prim (.num st.created_ts)),
                ("status", .prim (.str st.status)),
                ("plan", .ref pa),
                ("initial_state", .ref ia),
                ("vars", .ref va),
                ("save", .ref sa),
                ("last", .ref la),
                ("steps", .ref (halloc h1 (.plist stepRefs)).2),
                ("error", optS st.error),
                ("finished_ts", optQ st.finished_ts),
                ("cancelled", .prim (.bool st.cancelled))]))

/-- Fuelled rendering of a heap value to a plain `Value` by dereferencing
(used to observe what a snapshot looks like under a given heap). -/
def renderF : Nat → Heap → PVal → Value
  | 0, _, _ => .null
  | fuel + 1, h, v =>
    match v with
    | .prim w => w
    | .ref a =>
      match hget h a with
      | some (.pdict kvs) => .obj (kvs.map fun p => (p.1, renderF fuel h p.2))
      | some (.plist xs) => .arr (xs.map fun x => renderF fuel h x)
      | none => .null

/-- Field lookup on a rendered dict. -/
def vget (o : Option Value) (k : String) : Option Value :=
  o.bind fun v =>
    match v with
    | .obj kvs => dget kvs k
    | _ => none

/-- The integer found at `.vars.inner.x` of a rendered snapshot (0 when the
path is absent): a one-number observation of a snapshot. -/
def c9probe (v : Value) : Int :=
  match vget (vget (vget (some v) "vars") "inner") "x" with
  | some (.num q) => q.num
  | _ => 0

/-- A concrete heap for C9: address 0 is a `vars` dict `{"inner": <ref 1>}`,
address 1 the shared inner dict `{"x": 1}`, address 2 an empty dict. -/
def c9heap0 : Heap :=
  ⟨[(0, .pdict [("inner", .ref 1)]), (1, .pdict [("x", .prim (.num (qi 1)))]),
    (2, .pdict [])], 3⟩

/-- A concrete finished run for C9 whose `vars` is the dict at address 0 and
whose one step has empty `args`/`result`. -/
def c9run : HRun :=
  ⟨"r", qi 0, "done", 2, 2, 0, 2, 2,
   [⟨0, "tool", "t", 2, none, none, some true, 2, none⟩], none, none, false⟩

/-- The concrete serialization of `c9run` (heap and snapshot address). -/
def c9out : Heap × Nat :=
  (toDictH c9heap0 c9run).getD (⟨[], 0⟩, 0)

/-- A cell found in a prefix of an association list is found in the whole
list. -/
theorem cellsGet_append_some (cs ds : List (Nat × PObj)) (b : Nat) (o : PObj)
    (h : cellsGet cs b = some o) : cellsGet (cs ++ ds) b = some o := by
  induction cs with
  | nil => simp [cellsGet] at h
  | cons c rest ih =>
    rw [cellsGet] at h
    rw [List.cons_append, cellsGet]
    by_cases hb : c.1 = b
    · rw [if_pos hb] at h ⊢
      exact h
    · rw [if_neg hb] at h ⊢
      exact ih h

/-- Lookup skips a prefix in which the address is absent. -/
theorem cellsGet_append_none (cs ds : List (Nat × PObj)) (b : Nat)
    (h : cellsGet cs b = none) : cellsGet (cs ++ ds) b = cellsGet ds b := by
  induction cs with
  | nil => rfl
  | cons c rest ih =>
    rw [cellsGet] at h
    rw [List.cons_append, cellsGet]
    by_cases hb : c.1 = b
    · rw [if_pos hb] at h
      exact absurd h (by simp)
    · rw [if_neg hb] at h ⊢
      exact ih h

/-- A found address satisfies any bound satisfied by all cells. -/
theorem cellsGet_bound (cs : List (Nat × PObj)) (n : Nat) :
    (∀ c ∈ cs, c.1 < n) → ∀ b o, cellsGet cs b = some o → b < n := by
  induction cs with
  | nil =>
    intro _ b o hb
    simp [cellsGet] at hb
  | cons c rest ih =>
    intro hwf b o hb
    rw [cellsGet] at hb
    by_cases h1 : c.1 = b
    · exact h1 ▸ hwf c (List.mem_cons_self c rest)
    · rw [if_neg h1] at hb
      exact ih (fun d hd => hwf d (List.mem_cons_of_mem c hd)) b o hb

/-- In a well-formed heap, no address at or above `next` is allocated. -/
theorem wfHeap_fresh_none (h : Heap) (hwf : wfHeap h) (b : Nat) (hb : h.next ≤ b) :
    cellsGet h.cells b = none := by
  cases hcg : cellsGet h.cells b with
  | none => rfl
  | some o => exact absurd (cellsGet_bound h.cells h.next hwf b o hcg) (by omega)

/-- Allocation stores the object at the returned fresh address. -/
theorem hget_halloc_self (h : Heap) (o : PObj) (hwf : wfHeap h) :
    hget (halloc h o).1 (halloc h o).2 = some o := by
  show cellsGet (h.cells ++ [(h.next, o)]) h.next = some o
  rw [cellsGet_append_none h.cells _ h.next (wfHeap_fresh_none h hwf h.next (le_refl _))]
  rw [cellsGet, if_pos rfl]

/-- Allocation preserves heap well-formedness. -/
theorem wfHeap_halloc (h : Heap) (o : PObj) (hwf : wfHeap h) : wfHeap (halloc h o).1 := by
  intro c hc
  show c.1 < h.next + 1
  rcases List.mem_append.1 hc with h1 | h2
  · exact Nat.lt_succ_of_lt (hwf c h1)
  · rw [List.mem_singleton] at h2
    rw [h2]
    exact Nat.lt_succ_self _

/-- Allocation extends the heap. -/
theorem heapExt_halloc (h : Heap) (o : PObj) : heapExt h (halloc h o).1 :=
  ⟨fun b p hb => cellsGet_append_some h.cells _ b p hb, Nat.le_succ _⟩

/-- Heap extension is reflexive. -/
theorem heapExt_refl (h : Heap) : heapExt h h :=
  ⟨fun _ _ hb => hb, le_refl _⟩

/-- Heap extension is transitive. -/
theorem heapExt_trans {h1 h2 h3 : Heap} (a : heapExt h1 h2) (b : heapExt h2 h3) :
    heapExt h1 h3 :=
  ⟨fun x o hx => b.1 x o (a.1 x o hx), le_trans a.2 b.2⟩

/-- A successful `copyDict` read a dict and allocated a copy of it. -/
theorem copyDict_spec (h : Heap) (a : Nat) (p : Heap × Nat)
    (hc : copyDict h a = some p) :
    ∃ kvs, hget h a = some (.pdict kvs) ∧ p = halloc h (.pdict kvs) := by
  rw [copyDict] at hc
  split at hc
  · rename_i kvs hk
    injection hc with hc'
    exact ⟨kvs, hk, hc'.symm⟩
  · exact absurd hc (by simp)

/-- A successful `copyDict` extends the heap, keeps it well formed, returns a
fresh address, and that address holds the same immediate entries as the
source dict. -/
theorem copyDict_props (h : Heap) (a : Nat) (p : Heap × Nat) (hwf : wfHeap h)
    (hc : copyDict h a = some p) :
    heapExt h p.1 ∧ wfHeap p.1 ∧ h.next ≤ p.2
    ∧ ∀ kvs, hget h a = some (.pdict kvs) → hget p.1 p.2 = some (.pdict kvs) := by
  obtain ⟨kvs, hk, hp⟩ := copyDict_spec h a p hc
  subst hp
  refine ⟨heapExt_halloc h _, wfHeap_halloc h _ hwf, le_refl _, ?_⟩
  intro kvs2 hk2
  rw [hk] at hk2
  injection hk2 with hk3
  injection hk3 with hk4
  subst hk4
  exact hget_halloc_self h _ hwf

/-- A successful `stepOutH` extends the heap and keeps it well formed. -/
theorem stepOutH_props (h : Heap) (s : HStep) (r : Heap × PObj) (hwf : wfHeap h)
    (hs : stepOutH h s = some r) : heapExt h r.1 ∧ wfHeap r.1 := by
  rw [stepOutH] at hs
  split at hs
  · exact absurd hs (by simp)
  · rename_i h1 aAddr hc1
    split at hs
    · exact absurd hs (by simp)
    · rename_i h2 rAddr hc2
      injection hs with hs'
      subst hs'
      obtain ⟨e1, w1, _, _⟩ := copyDict_props h s.args (h1, aAddr) hwf hc1
      obtain ⟨e2, w2, _, _⟩ := copyDict_props h1 s.result (h2, rAddr) w1 hc2
      exact ⟨heapExt_trans e1 e2, w2⟩

/-- A successful `stepsOutH` extends the heap and keeps it well formed. -/
theorem stepsOutH_props (ss : List HStep) : ∀ (h : Heap) (r : Heap × List PVal),
    wfHeap h → stepsOutH h ss = some r → heapExt h r.1 ∧ wfHeap r.1 := by
  induction ss with
  | nil =>
    intro h r hwf hs
    rw [stepsOutH] at hs
    injection hs with hs'
    subst hs'
    exact ⟨heapExt_refl h, hwf⟩
  | cons s rest ih =>
    intro h r hwf hs
    rw [stepsOutH] at hs
    split at hs
    · exact absurd hs (by simp)
    · rename_i h1 o hc1
      split at hs
      · exact absurd hs (by simp)
      · rename_i h2 xs hc2
        injection hs with hs'
        subst hs'
        obtain ⟨e1, w1⟩ := stepOutH_props h s (h1, o) hwf hc1
        obtain ⟨e2, w2⟩ := ih (halloc h1 o).1 (h2, xs) (wfHeap_halloc h1 o w1) hc2
        exact ⟨heapExt_trans e1 (heapExt_trans (heapExt_halloc h1 o) e2), w2⟩

/-- C9 (amended): `to_dict` is a full serialization carrying the twelve
stable fields in source order, whose top-level containers are freshly
allocated — the snapshot address and the addresses holding the `plan`,
`initial_state`, `vars`, `save`, `last` copies and the `steps` list are all
fresh (at or above the pre-snapshot `next`, unallocated in the pre-snapshot
heap) — while each copied container carries exactly the source dict's
immediate entries (so the copies are shallow: nested references inside those
entries remain shared with the live run, as the counterexample shows), and
the pre-snapshot heap cells are all preserved unchanged. -/
theorem c9_to_dict_copy_out (h : Heap) (st : HRun) (out : Heap × Nat)
    (pk ik vk sk lk : List (String × PVal))
    (hwf : wfHeap h)
    (hplan : hget h st.plan = some (.pdict pk))
    (hinit : hget h st.initial_state = some (.pdict ik))
    (hvars : hget h st.vars = some (.pdict vk))
    (hsave : hget h st.save = some (.pdict sk))
    (hlast : hget h st.last = some (.pdict lk))
    (hout : toDictH h st = some out) :
    wfHeap out.1
    ∧ heapExt h out.1
    ∧ h.next ≤ out.2
    ∧ cellsGet h.cells out.2 = none
    ∧ ∃ pa ia va sa la sta,
        hget out.1 out.2 = some (.pdict [
          ("run_id", .prim (.str st.run_id)),
          ("created_ts", .prim (.num st.created_ts)),
          ("status", .prim (.str st.status)),
          ("plan", .ref pa),
          ("initial_state", .ref ia),
          ("vars", .ref va),
          ("save", .ref sa),
          ("last", .ref la),
          ("steps", .ref sta),
          ("error", optS st.error),
          ("finished_ts", optQ st.finished_ts),
          ("cancelled", .prim (.bool st.cancelled))])
        ∧ (h.next ≤ pa ∧ cellsGet h.cells pa = none ∧ hget out.1 pa = some (.pdict pk))
        ∧ (h.next ≤ ia ∧ cellsGet h.cells ia = none ∧ hget out.1 ia = some (.pdict ik))
        ∧ (h.next ≤ va ∧ cellsGet h.cells va = none ∧ hget out.1 va = some (.pdict vk))
        ∧ (h.next ≤ sa ∧ cellsGet h.cells sa = none ∧ hget out.1 sa = some (.pdict sk))
        ∧ (h.next ≤ la ∧ cellsGet h.cells la = none ∧ hget out.1 la = some (.pdict lk))
        ∧ (h.next ≤ sta ∧ cellsGet h.cells sta = none) := by
  rw [toDictH] at hout
  split at hout
  · exact absurd hout (by simp)
  · rename_i h1 stepRefs hst
    split at hout
    · exact absurd hout (by simp)
    · rename_i h2 pa hc1
      split at hout
      · exact absurd hout (by simp)
      · rename_i h3 ia hc2
        split at hout
        · exact absurd hout (by simp)
        · rename_i h4 va hc3
          split at hout
          · exact absurd hout (by simp)
          · rename_i h5 sa hc4
            split at hout
            · exact absurd hout (by simp)
            · rename_i h6 la hc5
              injection hout with hout'
              subst hout'
              obtain ⟨eS, wS⟩ := stepsOutH_props st.steps h (h1, stepRefs) hwf hst
              have eA : heapExt h1 (halloc h1 (.plist stepRefs)).1 :=
                heapExt_halloc h1 (.plist stepRefs)
              have wA : wfHeap (halloc h1 (.plist stepRefs)).1 :=
                wfHeap_halloc h1 (.plist stepRefs) wS
              obtain ⟨e1, w1, n1, c1⟩ :=
                copyDict_props (halloc h1 (.plist stepRefs)).1 st.plan (h2, pa) wA hc1
              obtain ⟨e2, w2, n2, c2⟩ := copyDict_props h2 st.initial_state (h3, ia) w1 hc2
              obtain ⟨e3, w3, n3, c3⟩ := copyDict_props h3 st.vars (h4, va) w2 hc3
              obtain ⟨e4, w4, n4, c4⟩ := copyDict_props h4 st.save (h5, sa) w3 hc4
              obtain ⟨e5, w5, n5, c5⟩ := copyDict_props h5 st.last (h6, la) w4 hc5
              have EA : heapExt h (halloc h1 (.plist stepRefs)).1 := heapExt_trans eS eA
              have EB : heapExt h h2 := heapExt_trans EA e1
              have EC : heapExt h h3 := heapExt_trans EB e2
              have ED : heapExt h h4 := heapExt_trans EC e3
              have EE : heapExt h h5 := heapExt_trans ED e4
              have EFh : heapExt h h6 := heapExt_trans EE e5
              have wT : wfHeap (halloc h6 (.pdict [
                  ("run_id", .prim (.str st.run_id)),
                  ("created_ts", .prim (.num st.created_ts)),
                  ("status", .prim (.str st.status)),
                  ("plan", .ref pa),
                  ("initial_state", .ref ia),
                  ("vars", .ref va),
                  ("save", .ref sa),
                  ("last", .ref la),
                  ("steps", .ref (halloc h1 (.plist stepRefs)).2),
                  ("error", optS st.error),
                  ("finished_ts", optQ st.finished_ts),
                  ("cancelled", .prim (.bool st.cancelled))])).1 :=
                wfHeap_halloc h6 _ w5
              have eT : heapExt h6 (halloc h6 (.pdict [
                  ("run_id", .prim (.str st.run_id)),
                  ("created_ts", .prim (.num st.created_ts)),
                  ("status", .prim (.str st.status)),
                  ("plan", .ref pa),
                  ("initial_state", .ref ia),
                  ("vars", .ref va),
                  ("save", .ref sa),
                  ("last", .ref la),
                  ("steps", .ref (halloc h1 (.plist stepRefs)).2),
                  ("error", optS st.error),
                  ("finished_ts", optQ st.finished_ts),
                  ("cancelled", .prim (.bool st.cancelled))])).1 :=
                heapExt_halloc h6 _
              refine ⟨wT, heapExt_trans EFh eT, EFh.2, wfHeap_fresh_none h hwf _ EFh.2,
                pa, ia, va, sa, la, (halloc h1 (.plist stepRefs)).2,
                hget_halloc_self h6 _ w5, ?_, ?_, ?_, ?_, ?_, ?_⟩
              · have hfresh : h.next ≤ pa := le_trans EA.2 n1
                have hcontent : hget h2 pa = some (.pdict pk) :=
                  c1 pk (EA.1 st.plan _ hplan)
                exact ⟨hfresh, wfHeap_fresh_none h hwf pa hfresh,
                  (heapExt_trans e2 (heapExt_trans e3 (heapExt_trans e4
                    (heapExt_trans e5 eT)))).1 pa _ hcontent⟩
              · have hfresh : h.next ≤ ia := le_trans EB.2 n2
                have hcontent : hget h3 ia = some (.pdict ik) :=
                  c2 ik (EB.1 st.initial_state _ hinit)
                exact ⟨hfresh, wfHeap_fresh_none h hwf ia hfresh,
                  (heapExt_trans e3 (heapExt_trans e4 (heapExt_trans e5 eT))).1 ia _ hcontent⟩
              · have hfresh : h.next ≤ va := le_trans EC.2 n3
                have hcontent : hget h4 va = some (.pdict vk) :=
                  c3 vk (EC.1 st.vars _ hvars)
                exact ⟨hfresh, wfHeap_fresh_none h hwf va hfresh,
                  (heapExt_trans e4 (heapExt_trans e5 eT)).1 va _ hcontent⟩
              · have hfresh : h.next ≤ sa := le_trans ED.2 n4
                have hcontent : hget h5 sa = some (.pdict sk) :=
                  c4 sk (ED.1 st.save _ hsave)
                exact ⟨hfresh, wfHeap_fresh_none h hwf sa hfresh,
                  (heapExt_trans e5 eT).1 sa _ hcontent⟩
              · have hfresh : h.next ≤ la := le_trans EE.2 n5
                have hcontent : hget h6 la = some (.pdict lk) :=
                  c5 lk (EE.1 st.last _ hlast)
                exact ⟨hfresh, wfHeap_fresh_none h hwf la hfresh, eT.1 la _ hcontent⟩
              · have hfresh : h.next ≤ (halloc h1 (.plist stepRefs)).2 := eS.2
                exact ⟨hfresh, wfHeap_fresh_none h hwf _ hfresh⟩

/-- C9 counterexample: the snapshot of `c9run` is NOT independent of later
mutation of the run.  The run's `vars` dict `{"inner": <ref 1>}` is
shallow-copied, so the snapshot still references the live inner dict at
address 1; observing `.vars.inner.x` of the rendered snapshot gives 1 before
and 2 after mutating that dict in place, so the rendered snapshot changes —
refuting "shares no live mutable references ... unaffected by later mutation
of the run". -/
theorem c9_to_dict_counterexample :
    hget c9heap0 c9run.vars = some (.pdict [("inner", PVal.ref 1)])
    ∧ toDictH c9heap0 c9run = some c9out
    ∧ c9probe (renderF 5 c9out.1 (.ref c9out.2)) = 1
    ∧ c9probe (renderF 5 (hset c9out.1 1 (.pdict [("x", .prim (.num (qi 2)))]))
        (.ref c9out.2)) = 2
    ∧ renderF 5 c9out.1 (.ref c9out.2)
      ≠ renderF 5 (hset c9out.1 1 (.pdict [("x", .prim (.num (qi 2)))])) (.ref c9out.2) := by
  refine ⟨rfl, rfl, rfl, rfl, fun heq => ?_⟩
  have h5 : (1 : Int) = 2 := congrArg c9probe heq
  exact absurd h5 (by decide)

/-- The concrete C9 heap is well formed. -/
theorem c9heap0_wf : wfHeap c9heap0 := by
  show ∀ c ∈ c9heap0.cells, c.1 < c9heap0.next
  decide

/-- Witness for C9 (amended) at the concrete heap `c9heap0` and run `c9run`:
the hypotheses hold and the serialization has fresh, content-correct
top-level containers over an extended heap. -/
theorem c9_to_dict_copy_out_witness :
    wfHeap c9heap0
    ∧ hget c9heap0 c9run.plan = some (.pdict [])
    ∧ hget c9heap0 c9run.vars = some (.pdict [("inner", PVal.ref 1)])
    ∧ toDictH c9heap0 c9run = some c9out
    ∧ (wfHeap c9out.1
      ∧ heapExt c9heap0 c9out.1
      ∧ c9heap0.next ≤ c9out.2
      ∧ cellsGet c9heap0.cells c9out.2 = none
      ∧ ∃ pa ia va sa la sta,
          hget c9out.1 c9out.2 = some (.pdict [
            ("run_id", .prim (.str c9run.run_id)),
            ("created_ts", .prim (.num c9run.created_ts)),
            ("status", .prim (.str c9run.status)),
            ("plan", .ref pa),
            ("initial_state", .ref ia),
            ("vars", .ref va),
            ("save", .ref sa),
            ("last", .ref la),
            ("steps", .ref sta),
            ("error", optS c9run.error),
            ("finished_ts", optQ c9run.finished_ts),
            ("cancelled", .prim (.bool c9run.cancelled))])
          ∧ (c9heap0.next ≤ pa ∧ cellsGet c9heap0.cells pa = none
            ∧ hget c9out.1 pa = some (.pdict []))
          ∧ (c9heap0.next ≤ ia ∧ cellsGet c9heap0.cells ia = none
            ∧ hget c9out.1 ia = some (.pdict []))
          ∧ (c9heap0.next ≤ va ∧ cellsGet c9heap0.cells va = none
            ∧ hget c9out.1 va = some (.pdict [("inner", PVal.ref 1)]))
          ∧ (c9heap0.next ≤ sa ∧ cellsGet c9heap0.cells sa = none
            ∧ hget c9out.1 sa = some (.pdict []))
          ∧ (c9heap0.next ≤ la ∧ cellsGet c9heap0.cells la = none
            ∧ hget c9out.1 la = some (.pdict []))
          ∧ (c9heap0.next ≤ sta ∧ cellsGet c9heap0.cells sta = none)) :=
  ⟨c9heap0_wf, rfl, rfl, rfl,
    c9_to_dict_copy_out c9heap0 c9run c9out [] [] [("inner", PVal.ref 1)] [] []
      c9heap0_wf rfl rfl rfl rfl rfl rfl⟩
